import Mathlib

/-!
# Batch dispatcher (`service.go`): shallow embedding

The program slices a collection of items into batches and hands each batch to a
`Service` under a per-batch timeout.  The embedding follows `service.go` line by line:

* Go `int` is the 64-bit two's complement integer (the `amd64`/`arm64` ports), modelled as
  `Int` with an explicit wrap after every addition; `uint64` is a `Nat` below `2 ^ 64`.
* `float64` values are modelled by the rational number they denote; the conversion
  `float64(int)` rounds to the nearest value with a 53 bit significand, ties to even.
* A slice is a view `(off, len, cap)` into its backing array.  `Item` is `struct{}`, so a
  view carries all the information a `[]Item` has.
* Output and context operations are recorded, per loop iteration, in an `Iteration`
  record; `Run.trace` lays the records out as the chronological list of events.
-/

namespace BatchService

/-! ## Machine integers -/

/-- Smallest value of Go `int` on a 64-bit port, `-2 ^ 63`. -/
def minInt : Int := -9223372036854775808

/-- Largest value of Go `int` on a 64-bit port, `2 ^ 63 - 1`. -/
def maxInt : Int := 9223372036854775807

/-- Two's complement wrap-around of a mathematical integer into the range of `int`:
`(x + 2 ^ 63) mod 2 ^ 64 - 2 ^ 63`. -/
def wrapInt (x : Int) : Int :=
  (x + 9223372036854775808) % 18446744073709551616 - 9223372036854775808

/-- Conversion `uint64(x)` of an `int`: the residue modulo `2 ^ 64`. -/
def uint64OfInt (x : Int) : Nat := (x % 18446744073709551616).toNat

/-- Conversion `int(n)` of a `uint64` (a natural number below `2 ^ 64`): the same 64 bits
read as two's complement, so values from `2 ^ 63` on come out as `n - 2 ^ 64`. -/
def intOfUint64 (n : Nat) : Int :=
  if n % 18446744073709551616 < 9223372036854775808 then
    ((n % 18446744073709551616 : Nat) : Int)
  else ((n % 18446744073709551616 : Nat) : Int) - 18446744073709551616

/-- Go integer addition on `int`. -/
def addInt (x y : Int) : Int := wrapInt (x + y)

/-- Go integer division on `int`: truncated towards zero, `none` is the run-time panic
"integer divide by zero". -/
def divInt (x y : Int) : Option Int :=
  if y = 0 then none else some (wrapInt (Int.tdiv x y))

/-! ## Floating point conversions used by `main` -/

/-- Number of low bits that do not fit a 53 bit significand: the least `e` with
`m / 2 ^ e < 2 ^ 53` (the first argument bounds the search and is given as `m`). -/
def excessBits : Nat → Nat → Nat
  | 0, _ => 0
  | fuel + 1, m => if m < 2 ^ 53 then 0 else excessBits fuel (m / 2) + 1

/-- Nearest natural number with a 53 bit significand, ties to even. -/
def roundNat53 (m : Nat) : Nat :=
  if m < 2 ^ 53 then m
  else
    let e := excessBits m m
    let q := m / 2 ^ e
    let r := m % 2 ^ e
    let half := 2 ^ (e - 1)
    if r < half then q * 2 ^ e
    else if half < r then (q + 1) * 2 ^ e
    else if q % 2 = 0 then q * 2 ^ e
    else (q + 1) * 2 ^ e

/-- Conversion `float64(x)` of an `int`; the result is the value the float denotes. -/
def float64OfInt (x : Int) : ℚ :=
  if 0 ≤ x then (roundNat53 x.toNat : ℚ) else -(roundNat53 (-x).toNat : ℚ)

/-- Function `math.Ceil` on finite values. -/
def mathCeil (f : ℚ) : ℚ := (⌈f⌉ : ℚ)

/-- Conversion `int(f)` of a finite `float64`: truncation towards zero.  A value outside the
range of `int` gives `minInt`, which is what the `amd64` port produces (the language leaves
that result to the implementation). -/
def intOfFloat64 (f : ℚ) : Int :=
  let t : Int := if 0 ≤ f then ⌊f⌋ else ⌈f⌉
  if minInt ≤ t ∧ t ≤ maxInt then t else minInt

/-! ## Data model -/

/-- Type `time.Duration`: a count of nanoseconds. -/
abbrev Duration := Int

/-- Constant `time.Second`. -/
def Second : Duration := 1000000000

/-- Value `ErrBlocked` and any other error value a `Service` may return; `nil` is `none`
of `Option GoError`. -/
inductive GoError
  | ErrBlocked
  | other (msg : String)
  deriving DecidableEq, Repr

/-- Contexts built by main: `context.Background()` and the result of
`context.WithTimeout(parent, timeout)`.  `id` tells apart the contexts of different calls. -/
inductive Context
  | Background
  | WithTimeout (id : Nat) (parent : Context) (timeout : Duration)
  deriving DecidableEq, Repr

/-- A slice header of `[]Item`: position of the first element in the backing array, length
and capacity. -/
structure Slice where
  off : Nat
  len : Nat
  cap : Nat
  deriving DecidableEq, Repr

/-- Type `Batch`, a slice of items. -/
abbrev Batch := Slice

/-- Expression `make([]Item, n)`; `none` is the panic "len out of range".  An `Item` has
size zero, so every non-negative length is accepted. -/
def makeItems (n : Int) : Option Slice :=
  if n < 0 then none else some ⟨0, n.toNat, n.toNat⟩

/-- Slice expression `s[lb:ub]`; `none` is the panic "slice bounds out of range", raised
unless `0 ≤ lb ≤ ub ≤ cap(s)`. -/
def Slice.slice (s : Slice) (lb ub : Int) : Option Slice :=
  if 0 ≤ lb ∧ lb ≤ ub ∧ ub ≤ (s.cap : Int) then
    some ⟨s.off + lb.toNat, (ub - lb).toNat, s.cap - lb.toNat⟩
  else none

/-- Positions of the backing array that a slice covers, in order. -/
def Slice.indices (s : Slice) : List Nat := List.range' s.off s.len

/-- Struct `ServiceParameters`. -/
structure ServiceParameters where
  batchSize : Int
  period : Duration
  numberOfItems : Int
  deriving DecidableEq, Repr

/-- What a `Process` call does besides returning: lines written and waits on a context. -/
inductive SvcEvent
  | Println (text : String) (value : Int)
  | AwaitDone (ctx : Context)
  deriving DecidableEq, Repr

/-- Interface `Service`, over the implementation's state `σ`. -/
structure Service (σ : Type) where
  GetLimits : σ → Nat × Duration
  Process : σ → Context → Batch → (List SvcEvent × Option GoError) × σ

/-- Struct `ServiceImpl`. -/
structure ServiceImpl where
  n : Nat
  p : Duration
  deriving DecidableEq, Repr

/-- Method `ServiceImpl.GetLimits`. -/
def ServiceImpl.GetLimits (s : ServiceImpl) : Nat × Duration := (s.n, s.p)

/-- Method `ServiceImpl.Process`: the effects of the call and the error it returns. -/
def ServiceImpl.Process (s : ServiceImpl) (ctx : Context) (batch : Batch) :
    List SvcEvent × Option GoError :=
  if intOfUint64 s.n < (batch.len : Int) then
    ([], some GoError.ErrBlocked)
  else
    ([SvcEvent.Println "Processed " batch.len, SvcEvent.AwaitDone ctx], none)

/-- The implementation `ServiceImpl` seen through the interface `Service`. -/
def implService : Service ServiceImpl where
  GetLimits := ServiceImpl.GetLimits
  Process := fun s ctx batch => (s.Process ctx batch, s)

/-! ## The loop of `main` -/

/-- One pass through the body of the loop of main. -/
structure Iteration where
  i : Int
  lb : Int
  ub : Int
  batch : Batch
  ctx : Context
  effects : List SvcEvent
  err : Option GoError
  printed : List String
  deriving DecidableEq, Repr

/-- How main ends. -/
inductive Exit
  | Returned
  | PanicMakeSlice
  | PanicDivideByZero
  | PanicSliceBounds
  deriving DecidableEq, Repr

/-- Outcome of a run of main: the iterations in order (a panicking one is not recorded,
it stops at the slice expression) and the way the run ended. -/
structure Run where
  iterations : List Iteration
  exit : Exit
  deriving DecidableEq, Repr

/-- What main does, one entry per operation that touches a context, the service or the
output. -/
inductive Event
  | WithTimeout (ctx : Context)
  | Defer (ctx : Context)
  | Process (ctx : Context) (batch : Batch) (effects : List SvcEvent) (err : Option GoError)
  | Println (text : String)
  | Cancel (ctx : Context)
  deriving DecidableEq, Repr

/-- Events of one pass, in program order: the context is created, its `cancel` is deferred,
`Process` is called and the lines of the pass are written. -/
def Iteration.events (it : Iteration) : List Event :=
  [Event.WithTimeout it.ctx, Event.Defer it.ctx,
    Event.Process it.ctx it.batch it.effects it.err] ++ it.printed.map Event.Println

/-- Events of a run: the passes in order, then the deferred `cancel` calls, which run when
main returns or panics, the latest first. -/
def Run.trace (r : Run) : List Event :=
  r.iterations.flatMap Iteration.events ++
    r.iterations.reverse.map (fun it => Event.Cancel it.ctx)

/-- Expression `int(math.Ceil(float64(params.numberOfItems / params.batchSize)))`;
`none` is the division panic. -/
def batchAmount (params : ServiceParameters) : Option Int :=
  (divInt params.numberOfItems params.batchSize).map
    (fun q => intOfFloat64 (mathCeil (float64OfInt q)))

/-- The loop `for i := 0; i <= batchAmount; i++`, entered with the counter at `i` and
`remaining` passes to go: the body changes neither `i` nor `batchAmount`, so the loop started
at `i = 0` makes `batchAmount + 1` passes, or none when `batchAmount` is negative. -/
def loop {σ : Type} (S : Service σ) (params : ServiceParameters) (allItems : Slice) :
    Nat → Int → Int → σ → Run
  | 0, _, _, _ => ⟨[], Exit.Returned⟩
  | remaining + 1, i, cursor, s =>
    let lb := cursor
    let ub0 := addInt cursor params.batchSize
    let ub := if ub0 > params.numberOfItems then params.numberOfItems else ub0
    match allItems.slice lb ub with
    | none => ⟨[], Exit.PanicSliceBounds⟩
    | some batch =>
      let timeoutCtx := Context.WithTimeout i.toNat Context.Background params.period
      let r := S.Process s timeoutCtx batch
      let err := r.1.2
      let printed := if err = some GoError.ErrBlocked then ["Service is blocked"] else []
      let rest := loop S params allItems remaining (addInt i 1)
        (addInt cursor params.batchSize) r.2
      ⟨⟨i, lb, ub, batch, timeoutCtx, r.1.1, err, printed⟩ :: rest.iterations, rest.exit⟩

/-- The body of main for given parameters and service: allocation of the items, the batch
count and the loop. -/
def run {σ : Type} (S : Service σ) (s : σ) (params : ServiceParameters) : Run :=
  match makeItems params.numberOfItems with
  | none => ⟨[], Exit.PanicMakeSlice⟩
  | some allItems =>
    match batchAmount params with
    | none => ⟨[], Exit.PanicDivideByZero⟩
    | some amount => loop S params allItems (amount + 1).toNat 0 0 s

/-- The service main constructs: `ServiceImpl{uint64(params.batchSize), params.period}`. -/
def mainService (params : ServiceParameters) : ServiceImpl :=
  ⟨uint64OfInt params.batchSize, params.period⟩

/-- The parameters written in main. -/
def mainParams : ServiceParameters := ⟨25, 2 * Second, 69⟩

/-- Function `main`. -/
def main : Run := run implService (mainService mainParams) mainParams

/-! ## Views of a run used in the statements -/

/-- The part of an iteration record that does not depend on the service: counter, bounds,
batch and context. -/
def Iteration.slot (it : Iteration) : Int × Int × Int × Batch × Context :=
  (it.i, it.lb, it.ub, it.batch, it.ctx)

/-- Slot of pass `j` written in closed form, for batch size `B`, `N` items and timeout `d`. -/
def slotAt (B N : Nat) (d : Duration) (j : Nat) : Int × Int × Int × Batch × Context :=
  ((j : Int), ((j * B : Nat) : Int), ((min (j * B + B) N : Nat) : Int),
    ⟨j * B, min (j * B + B) N - j * B, N - j * B⟩,
    Context.WithTimeout j Context.Background d)

/-- Batches handed to `Process` during a run, in order. -/
def Run.batches (r : Run) : List Batch := r.iterations.map (fun it => it.batch)

/-- Lengths of the batches handed to `Process` during a run, in order. -/
def Run.sizes (r : Run) : List Nat := r.iterations.map (fun it => it.batch.len)

/-- Bounds `(lb, ub)` of the slice expressions evaluated during a run, in order. -/
def Run.bounds (r : Run) : List (Int × Int) := r.iterations.map (fun it => (it.lb, it.ub))

/-- Errors returned by the `Process` calls of a run, in order. -/
def Run.errors (r : Run) : List (Option GoError) := r.iterations.map (fun it => it.err)

/-- Lines main itself wrote during a run, in order. -/
def Run.output (r : Run) : List String := r.iterations.flatMap (fun it => it.printed)

/-- Contexts whose `cancel` has been deferred and has not run yet, after the given events;
the latest deferred comes first. -/
def pendingCancels (events : List Event) : List Context :=
  events.foldl
    (fun acc e =>
      match e with
      | Event.Defer ctx => ctx :: acc
      | Event.Cancel ctx => acc.erase ctx
      | _ => acc)
    []

/-- Contexts handed to `Process` during a run, in order. -/
def Run.contexts (r : Run) : List Context := r.iterations.map (fun it => it.ctx)

/-- A call of one of the two methods of the interface `Service`. -/
inductive ServiceCall
  | GetLimits
  | Process (ctx : Context) (batch : Batch)
  deriving DecidableEq, Repr

/-- Calls main makes on the service during a run, in order.  The only expression of main
that calls a method of `s` is `s.Process(timeoutCtx, batch)` in the loop body. -/
def Run.serviceCalls (r : Run) : List ServiceCall :=
  r.iterations.map (fun it => ServiceCall.Process it.ctx it.batch)

/-- Value of `cursor` after the last completed pass: every pass starts with `lb := cursor`
and ends with `cursor += params.batchSize`; before the first pass `cursor` is 0. -/
def Run.finalCursor (r : Run) (params : ServiceParameters) : Int :=
  match r.iterations.getLast? with
  | none => 0
  | some it => addInt it.lb params.batchSize

/-- The batches of a run partition the positions `0 .. n - 1`: laid end to end in the order
of the passes they give every position once, they are pairwise disjoint, every position
lies in exactly one batch, and their lengths add up to `n`. -/
def Run.Partitions (r : Run) (n : Nat) : Prop :=
  (r.batches.map Slice.indices).flatten = List.range n ∧
  r.batches.Pairwise (fun a b => List.Disjoint a.indices b.indices) ∧
  (∀ k, k < n → r.batches.countP (fun b => decide (k ∈ b.indices)) = 1) ∧
  r.sizes.sum = n

/-- Batch count as the specification words it: the ceiling of the exact quotient
`numberOfItems / batchSize` over the rationals. -/
def ceilQuotient (params : ServiceParameters) : Int :=
  ⌈(params.numberOfItems : ℚ) / (params.batchSize : ℚ)⌉

/-! ## Arithmetic of the embedding

The general lemmas reason about `wrapInt` and `intOfFloat64` through the equations proved
here and never by unfolding them against symbolic arguments (which would count up to
`2 ^ 63` in unary), so both are kept irreducible inside this section. -/

section General

attribute [local irreducible] wrapInt intOfFloat64

theorem wrapInt_of_range {x : Int} (h1 : minInt ≤ x) (h2 : x ≤ maxInt) : wrapInt x = x := by
  unfold wrapInt
  unfold minInt at h1
  unfold maxInt at h2
  omega

theorem addInt_natCast (a b : Nat) (h : (a : Int) + (b : Int) ≤ maxInt) :
    addInt (a : Int) (b : Int) = ((a + b : Nat) : Int) := by
  have hmin : minInt = -9223372036854775808 := rfl
  unfold addInt
  rw [wrapInt_of_range (by omega) h]
  push_cast; rfl

theorem roundNat53_of_lt {m : Nat} (h : m < 2 ^ 53) : roundNat53 m = m := by
  unfold roundNat53
  rw [if_pos h]

theorem roundNat53_two_pow : roundNat53 (2 ^ 53) = 2 ^ 53 := by decide

theorem roundNat53_of_le {m : Nat} (h : m ≤ 2 ^ 53) : roundNat53 m = m := by
  rcases Nat.lt_or_ge m (2 ^ 53) with h1 | h1
  · exact roundNat53_of_lt h1
  · have : m = 2 ^ 53 := Nat.le_antisymm h h1
    subst this
    exact roundNat53_two_pow

theorem ceilFloat_of_small {q : Int} (h0 : 0 ≤ q) (h1 : q ≤ 2 ^ 53) :
    intOfFloat64 (mathCeil (float64OfInt q)) = q := by
  obtain ⟨m, rfl⟩ := Int.eq_ofNat_of_zero_le h0
  have hm : m ≤ 2 ^ 53 := by exact_mod_cast h1
  unfold float64OfInt mathCeil intOfFloat64
  simp only [if_pos h0, Int.toNat_ofNat, roundNat53_of_le hm]
  simp only [Int.ceil_natCast, Int.cast_natCast, Nat.cast_nonneg, if_true, Int.floor_natCast]
  unfold minInt maxInt
  rw [if_pos]
  constructor <;> omega

theorem divInt_of_pos {n b : Int} (hb : 0 < b) (hn : 0 ≤ n) (hmax : n ≤ maxInt) :
    divInt n b = some (n / b) := by
  unfold divInt
  rw [if_neg (by omega), Int.tdiv_eq_ediv hn (by omega)]
  have h1 : 0 ≤ n / b := Int.ediv_nonneg hn (by omega)
  have h2 : n / b ≤ n := Int.ediv_le_self b hn
  rw [wrapInt_of_range (by unfold minInt; omega) (by omega)]

theorem batchAmount_of_valid (params : ServiceParameters) (hb : 0 < params.batchSize)
    (hn : 0 ≤ params.numberOfItems) (hmax : params.numberOfItems ≤ maxInt)
    (hq : params.numberOfItems / params.batchSize ≤ 2 ^ 53) :
    batchAmount params = some (params.numberOfItems / params.batchSize) := by
  unfold batchAmount
  rw [divInt_of_pos hb hn hmax]
  simp only [Option.map_some']
  rw [ceilFloat_of_small (Int.ediv_nonneg hn (by omega)) hq]

theorem upper_bound_eq (c B N : Nat) :
    (if ((c + B : Nat) : Int) > (N : Int) then (N : Int) else ((c + B : Nat) : Int))
      = ((min (c + B) N : Nat) : Int) := by
  split <;> omega

theorem slice_allItems (c u N : Nat) (hc : c ≤ u) (hu : u ≤ N) :
    Slice.slice ⟨0, N, N⟩ (c : Int) (u : Int) = some ⟨c, u - c, N - c⟩ := by
  unfold Slice.slice
  simp only []
  rw [if_pos (by omega)]
  simp only [Int.toNat_ofNat, Int.toNat_sub, Nat.zero_add]

/-! ## The loop in closed form -/

theorem loop_slots {σ : Type} (S : Service σ) (B N : Nat) (d : Duration) (hB : 0 < B)
    (hov : (N : Int) + (B : Int) ≤ maxInt) :
    ∀ (k i : Nat) (s : σ), (i + k - 1) * B ≤ N →
      (loop S ⟨(B : Int), d, (N : Int)⟩ ⟨0, N, N⟩ k (i : Int) ((i * B : Nat) : Int) s).exit
          = Exit.Returned ∧
      (loop S ⟨(B : Int), d, (N : Int)⟩ ⟨0, N, N⟩ k (i : Int)
          ((i * B : Nat) : Int) s).iterations.map Iteration.slot
        = (List.range' i k).map (slotAt B N d) := by
  intro k
  induction k with
  | zero => intro i s _; simp [loop]
  | succ k ih =>
    intro i s hk
    have hiB : i * B ≤ N := by
      have : i ≤ i + (k + 1) - 1 := by omega
      exact le_trans (Nat.mul_le_mul_right B this) hk
    have hi : i ≤ N := le_trans (Nat.le_mul_of_pos_right i hB) hiB
    have hnext : (i + 1 + k - 1) * B ≤ N := by
      have : i + 1 + k - 1 = i + (k + 1) - 1 := by omega
      rw [this]; exact hk
    have hadd : addInt ((i * B : Nat) : Int) (B : Int) = ((i * B + B : Nat) : Int) :=
      addInt_natCast _ _ (by omega)
    have hinc : addInt (i : Int) 1 = ((i + 1 : Nat) : Int) :=
      addInt_natCast i 1 (by push_cast; omega)
    have hcur : ((i * B + B : Nat) : Int) = (((i + 1) * B : Nat) : Int) := by
      rw [Nat.succ_mul]
    have hslice := slice_allItems (i * B) (min (i * B + B) N) N (by omega) (by omega)
    obtain ⟨ih1, ih2⟩ := ih (i + 1) (S.Process s (Context.WithTimeout i Context.Background d)
      ⟨i * B, min (i * B + B) N - i * B, N - i * B⟩).2 hnext
    have hloop : loop S ⟨(B : Int), d, (N : Int)⟩ ⟨0, N, N⟩ (k + 1) (i : Int)
        ((i * B : Nat) : Int) s =
        ⟨⟨(i : Int), ((i * B : Nat) : Int), ((min (i * B + B) N : Nat) : Int),
            ⟨i * B, min (i * B + B) N - i * B, N - i * B⟩,
            Context.WithTimeout i Context.Background d,
            (S.Process s (Context.WithTimeout i Context.Background d)
              ⟨i * B, min (i * B + B) N - i * B, N - i * B⟩).1.1,
            (S.Process s (Context.WithTimeout i Context.Background d)
              ⟨i * B, min (i * B + B) N - i * B, N - i * B⟩).1.2,
            if (S.Process s (Context.WithTimeout i Context.Background d)
              ⟨i * B, min (i * B + B) N - i * B, N - i * B⟩).1.2 = some GoError.ErrBlocked
            then ["Service is blocked"] else []⟩ ::
          (loop S ⟨(B : Int), d, (N : Int)⟩ ⟨0, N, N⟩ k ((i + 1 : Nat) : Int)
            (((i + 1) * B : Nat) : Int) (S.Process s (Context.WithTimeout i Context.Background d)
              ⟨i * B, min (i * B + B) N - i * B, N - i * B⟩).2).iterations,
         (loop S ⟨(B : Int), d, (N : Int)⟩ ⟨0, N, N⟩ k ((i + 1 : Nat) : Int)
            (((i + 1) * B : Nat) : Int) (S.Process s (Context.WithTimeout i Context.Background d)
              ⟨i * B, min (i * B + B) N - i * B, N - i * B⟩).2).exit⟩ := by
      rw [loop]
      simp only [hadd, upper_bound_eq, hslice, hinc, Int.toNat_ofNat]
      rw [hcur]
    rw [hloop]
    refine ⟨ih1, ?_⟩
    rw [List.range'_succ, List.map_cons, List.map_cons, ih2]
    rfl

theorem run_slots {σ : Type} (S : Service σ) (s : σ) (B N : Nat) (d : Duration) (hB : 0 < B)
    (hov : (N : Int) + (B : Int) ≤ maxInt) (hq : N / B ≤ 2 ^ 53) :
    (run S s ⟨(B : Int), d, (N : Int)⟩).exit = Exit.Returned ∧
    (run S s ⟨(B : Int), d, (N : Int)⟩).iterations.map Iteration.slot
      = (List.range (N / B + 1)).map (slotAt B N d) := by
  have hamount : batchAmount ⟨(B : Int), d, (N : Int)⟩ = some (((N / B : Nat) : Int)) := by
    rw [batchAmount_of_valid _ (by simpa using hB) (by simp) (by simp only []; omega)
      (by simp only []; exact_mod_cast hq)]
    simp
  have hmake : makeItems (N : Int) = some ⟨0, N, N⟩ := by
    unfold makeItems
    rw [if_neg (by omega)]
    simp
  have hk : (((N / B : Nat) : Int) + 1).toNat = N / B + 1 := by
    rw [← Nat.cast_succ, Int.toNat_ofNat]
  have h := loop_slots S B N d hB hov (N / B + 1) 0 s
    (by simpa using Nat.div_mul_le_self N B)
  simp only [Nat.zero_mul, Nat.cast_zero] at h
  unfold run
  simp only [hmake, hamount, hk]
  rw [List.range_eq_range']
  exact h

theorem loop_printed {σ : Type} (S : Service σ) (params : ServiceParameters) (allItems : Slice) :
    ∀ (k : Nat) (i cursor : Int) (s : σ), ∀ it ∈ (loop S params allItems k i cursor s).iterations,
      it.printed = if it.err = some GoError.ErrBlocked then ["Service is blocked"] else [] := by
  intro k
  induction k with
  | zero => intro i cursor s it hit; simp [loop] at hit
  | succ k ih =>
    intro i cursor s it hit
    rw [loop] at hit
    split at hit
    · simp at hit
    · simp only [List.mem_cons] at hit
      rcases hit with rfl | hit
      · rfl
      · exact ih _ _ _ it hit

theorem loop_impl (sv : ServiceImpl) (params : ServiceParameters) (allItems : Slice) :
    ∀ (k : Nat) (i cursor : Int),
      ∀ it ∈ (loop implService params allItems k i cursor sv).iterations,
        (it.effects, it.err) = sv.Process it.ctx it.batch := by
  intro k
  induction k with
  | zero => intro i cursor it hit; simp [loop] at hit
  | succ k ih =>
    intro i cursor it hit
    rw [loop] at hit
    split at hit
    · simp at hit
    · simp only [List.mem_cons] at hit
      rcases hit with rfl | hit
      · rfl
      · exact ih _ _ it hit

theorem loop_independent {σ τ : Type} (S : Service σ) (T : Service τ)
    (params : ServiceParameters) (allItems : Slice) :
    ∀ (k : Nat) (i cursor : Int) (s : σ) (t : τ),
      (loop S params allItems k i cursor s).exit = (loop T params allItems k i cursor t).exit ∧
      (loop S params allItems k i cursor s).iterations.map Iteration.slot
        = (loop T params allItems k i cursor t).iterations.map Iteration.slot := by
  intro k
  induction k with
  | zero => intro i cursor s t; simp [loop]
  | succ k ih =>
    intro i cursor s t
    rw [loop, loop]
    split
    · simp
    · rename_i batch hb
      obtain ⟨h1, h2⟩ := ih (addInt i 1) (addInt cursor params.batchSize)
        (S.Process s (Context.WithTimeout i.toNat Context.Background params.period) batch).2
        (T.Process t (Context.WithTimeout i.toNat Context.Background params.period) batch).2
      simp only [List.map_cons, h1, h2, Iteration.slot]
      trivial

/-! ## Lists of index ranges -/

theorem flatten_ranges (B N : Nat) (hB : 0 < B) :
    ∀ m : Nat, m ≤ N / B + 1 →
      ((List.range m).map (fun j => List.range' (j * B) (min (j * B + B) N - j * B))).flatten
        = List.range (min (m * B) N) := by
  intro m
  induction m with
  | zero => intro _; simp
  | succ m ih =>
    intro hm
    have hmB : m * B ≤ N := (Nat.le_div_iff_mul_le hB).1 (by omega)
    have hsucc : (m + 1) * B = m * B + B := Nat.succ_mul m B
    rw [List.range_succ, List.map_append, List.flatten_append, ih (by omega),
      Nat.min_eq_left hmB, List.map_singleton, List.flatten_singleton,
      List.range_eq_range', List.range_eq_range']
    have := List.range'_append_1 0 (m * B) (min (m * B + B) N - m * B)
    rw [Nat.zero_add] at this
    rw [this, hsucc]
    congr 1
    omega

theorem min_succ_div_mul (B N : Nat) (hB : 0 < B) : min ((N / B + 1) * B) N = N := by
  have h1 := Nat.div_add_mod N B
  have h2 := Nat.mod_lt N hB
  rw [Nat.mul_comm] at h1
  have h3 : (N / B + 1) * B = N / B * B + B := Nat.succ_mul _ _
  omega

theorem countP_mem_eq_count (k : Nat) :
    ∀ L : List (List Nat), (∀ l ∈ L, l.Nodup) →
      L.countP (fun l => decide (k ∈ l)) = L.flatten.count k := by
  intro L
  induction L with
  | nil => intro _; simp
  | cons l L ih =>
    intro h
    have hl : l.Nodup := h l (List.mem_cons_self _ _)
    have hL : ∀ x ∈ L, x.Nodup := fun x hx => h x (List.mem_cons_of_mem _ hx)
    rw [List.countP_cons, List.flatten_cons, List.count_append, ih hL,
      List.count_eq_of_nodup hl]
    by_cases hk : k ∈ l <;> simp [hk, Nat.add_comm]

theorem partitions_of_flatten (r : Run) (n : Nat)
    (h : (r.batches.map Slice.indices).flatten = List.range n) : r.Partitions n := by
  have hnd : (r.batches.map Slice.indices).flatten.Nodup := h ▸ List.nodup_range n
  obtain ⟨h1, h2⟩ := List.nodup_flatten.1 hnd
  refine ⟨h, ?_, ?_, ?_⟩
  · exact (List.pairwise_map.1 h2)
  · intro k hk
    have hc := countP_mem_eq_count k _ h1
    rw [List.countP_map] at hc
    rw [h, List.count_eq_of_nodup (List.nodup_range n)] at hc
    simp only [List.mem_range, hk, if_true] at hc
    exact hc
  · have hlen := congrArg List.length h
    rw [List.length_flatten, List.length_range, List.map_map] at hlen
    rw [← hlen]
    unfold Run.sizes Run.batches
    rw [List.map_map]
    congr 1
    apply List.map_congr_left
    intro it _
    simp [Slice.indices]

/-! ## Views of a valid run in closed form -/

theorem valid_params (params : ServiceParameters) (hb : 0 < params.batchSize)
    (hn : 0 ≤ params.numberOfItems)
    (hov : params.numberOfItems + params.batchSize ≤ maxInt)
    (hq : params.numberOfItems / params.batchSize ≤ 2 ^ 53) :
    ∃ B N : Nat, params = ⟨(B : Int), params.period, (N : Int)⟩ ∧ 0 < B ∧
      (N : Int) + (B : Int) ≤ maxInt ∧ N / B ≤ 2 ^ 53 ∧
      params.batchSize.toNat = B ∧ params.numberOfItems.toNat = N := by
  obtain ⟨b, d, n⟩ := params
  simp only [] at hb hn hov hq ⊢
  obtain ⟨B, rfl⟩ := Int.eq_ofNat_of_zero_le (le_of_lt hb)
  obtain ⟨N, rfl⟩ := Int.eq_ofNat_of_zero_le hn
  refine ⟨B, N, rfl, by exact_mod_cast hb, hov, ?_, by simp, by simp⟩
  exact_mod_cast hq

theorem run_batches {σ : Type} (S : Service σ) (s : σ) (B N : Nat) (d : Duration) (hB : 0 < B)
    (hov : (N : Int) + (B : Int) ≤ maxInt) (hq : N / B ≤ 2 ^ 53) :
    (run S s ⟨(B : Int), d, (N : Int)⟩).batches
      = (List.range (N / B + 1)).map
          (fun j => (⟨j * B, min (j * B + B) N - j * B, N - j * B⟩ : Batch)) := by
  have h := congrArg (List.map (fun t : Int × Int × Int × Batch × Context => t.2.2.2.1))
    (run_slots S s B N d hB hov hq).2
  simp only [List.map_map] at h
  exact h

theorem run_sizes {σ : Type} (S : Service σ) (s : σ) (B N : Nat) (d : Duration) (hB : 0 < B)
    (hov : (N : Int) + (B : Int) ≤ maxInt) (hq : N / B ≤ 2 ^ 53) :
    (run S s ⟨(B : Int), d, (N : Int)⟩).sizes
      = List.replicate (N / B) B ++ [N % B] := by
  have h := congrArg (List.map (fun b : Batch => b.len)) (run_batches S s B N d hB hov hq)
  simp only [Run.batches, List.map_map] at h
  have hsz : (run S s ⟨(B : Int), d, (N : Int)⟩).sizes
      = (List.range (N / B + 1)).map (fun j => min (j * B + B) N - j * B) := h
  rw [hsz, List.range_succ, List.map_append, List.map_singleton]
  have h1 := Nat.div_add_mod N B
  have h2 := Nat.mod_lt N hB
  rw [Nat.mul_comm] at h1
  congr 1
  · rw [List.eq_replicate_iff]
    refine ⟨by simp, ?_⟩
    intro x hx
    obtain ⟨j, hj, rfl⟩ := List.mem_map.1 hx
    have hj' : j < N / B := List.mem_range.1 hj
    have : j * B + B ≤ N / B * B := by
      rw [← Nat.succ_mul]; exact Nat.mul_le_mul_right B hj'
    omega
  · congr 1
    omega

theorem run_iteration_slot {σ : Type} (S : Service σ) (s : σ) (B N : Nat) (d : Duration)
    (hB : 0 < B) (hov : (N : Int) + (B : Int) ≤ maxInt) (hq : N / B ≤ 2 ^ 53) :
    ∀ it ∈ (run S s ⟨(B : Int), d, (N : Int)⟩).iterations,
      ∃ j : Nat, j * B ≤ N ∧ it.slot = slotAt B N d j := by
  intro it hit
  have hmem : it.slot ∈ (run S s ⟨(B : Int), d, (N : Int)⟩).iterations.map Iteration.slot :=
    List.mem_map_of_mem _ hit
  rw [(run_slots S s B N d hB hov hq).2] at hmem
  obtain ⟨j, hj, hj'⟩ := List.mem_map.1 hmem
  refine ⟨j, ?_, hj'.symm⟩
  have : j ≤ N / B := Nat.lt_succ_iff.1 (List.mem_range.1 hj)
  exact (Nat.le_div_iff_mul_le hB).1 this

/-! ## Non-positive batch sizes -/

theorem two_pow_excessBits_le : ∀ (fuel m : Nat), 1 ≤ m → 2 ^ excessBits fuel m ≤ m := by
  intro fuel
  induction fuel with
  | zero => intro m hm; simpa [excessBits] using hm
  | succ fuel ih =>
    intro m hm
    unfold excessBits
    split
    · simpa using hm
    · rename_i h
      have h53 : (2 : Nat) ^ 53 = 9007199254740992 := by norm_num
      have hm2 : 1 ≤ m / 2 := by omega
      have := ih (m / 2) hm2
      rw [Nat.pow_succ]
      omega

theorem roundNat53_pos {m : Nat} (hm : 1 ≤ m) : 1 ≤ roundNat53 m := by
  unfold roundNat53
  split
  · exact hm
  · have he := two_pow_excessBits_le m m hm
    have hq : 1 ≤ m / 2 ^ excessBits m m := (Nat.one_le_div_iff (by positivity)).2 he
    have hpos : 0 < 2 ^ excessBits m m := by positivity
    have h1 : 1 ≤ m / 2 ^ excessBits m m * 2 ^ excessBits m m := Nat.mul_pos hq hpos
    have h2 : 1 ≤ (m / 2 ^ excessBits m m + 1) * 2 ^ excessBits m m :=
      Nat.mul_pos (Nat.succ_pos _) hpos
    simp only []
    split
    · exact h1
    · split
      · exact h2
      · split
        · exact h1
        · exact h2

theorem intOfFloat64_neg (r : Nat) (hr : 1 ≤ r) :
    intOfFloat64 (mathCeil (-(r : ℚ))) ≤ -1 := by
  have hceil : mathCeil (-(r : ℚ)) = ((-(r : Int) : Int) : ℚ) := by
    unfold mathCeil
    rw [Int.ceil_neg, Int.floor_natCast]
  rw [hceil]
  have hneg : ¬ (0 : ℚ) ≤ ((-(r : Int) : Int) : ℚ) := by
    rw [Int.cast_nonneg]
    omega
  unfold intOfFloat64
  simp only [if_neg hneg, Int.ceil_intCast]
  split
  · omega
  · unfold minInt; omega

theorem divInt_neg (N M : Nat) (hM : 0 < M) (hN : (N : Int) ≤ maxInt) :
    divInt (N : Int) (-(M : Int)) = some (-((N / M : Nat) : Int)) := by
  unfold divInt
  rw [if_neg (by omega), Int.tdiv_neg, Int.tdiv_eq_ediv (by omega) (by omega)]
  have h2 : (N : Int) / (M : Int) ≤ N := Int.ediv_le_self _ (by omega)
  have h1 : 0 ≤ (N : Int) / (M : Int) := Int.ediv_nonneg (by omega) (by omega)
  have hmax : maxInt = 9223372036854775807 := rfl
  rw [wrapInt_of_range (by unfold minInt; omega) (by omega), Int.natCast_div]


theorem batchAmount_neg (N M : Nat) (d : Duration) (hM : 0 < M) (hN : (N : Int) ≤ maxInt) :
    ∃ a : Int, batchAmount ⟨-(M : Int), d, (N : Int)⟩ = some a ∧
      (N < M → a = 0) ∧ (M ≤ N → a ≤ -1) := by
  unfold batchAmount
  simp only [divInt_neg N M hM hN, Option.map_some']
  refine ⟨_, rfl, ?_, ?_⟩
  · intro h
    rw [Nat.div_eq_of_lt h]
    exact ceilFloat_of_small (le_refl _) (by norm_num)
  · intro h
    have hk : 1 ≤ N / M := (Nat.one_le_div_iff hM).2 h
    have hfl : float64OfInt (-((N / M : Nat) : Int)) = -((roundNat53 (N / M) : Nat) : ℚ) := by
      unfold float64OfInt
      rw [if_neg (by omega), Int.neg_neg, Int.toNat_ofNat]
    rw [hfl]
    exact intOfFloat64_neg _ (roundNat53_pos hk)

/-! ## Independence of the service -/

theorem run_independent {σ τ : Type} (S : Service σ) (T : Service τ) (s : σ) (t : τ)
    (params : ServiceParameters) :
    (run S s params).exit = (run T t params).exit ∧
    (run S s params).iterations.map Iteration.slot
      = (run T t params).iterations.map Iteration.slot := by
  unfold run
  cases makeItems params.numberOfItems with
  | none => exact ⟨rfl, rfl⟩
  | some allItems =>
    cases batchAmount params with
    | none => exact ⟨rfl, rfl⟩
    | some amount => exact loop_independent S T params allItems _ _ _ s t

/-! ## The admission test of `ServiceImpl` -/

theorem intOfUint64_of_lt {n : Nat} (h : n < 9223372036854775808) : intOfUint64 n = (n : Int) := by
  unfold intOfUint64
  have hmod : n % 18446744073709551616 = n := Nat.mod_eq_of_lt (by omega)
  rw [hmod, if_pos h]

theorem intOfUint64_of_ge {n : Nat} (h1 : 9223372036854775808 ≤ n)
    (h2 : n < 18446744073709551616) : intOfUint64 n = (n : Int) - 18446744073709551616 := by
  unfold intOfUint64
  have hmod : n % 18446744073709551616 = n := Nat.mod_eq_of_lt h2
  rw [hmod, if_neg (by omega)]

theorem process_err_of_lt (n : Nat) (p : Duration) (ctx : Context) (batch : Batch)
    (h : n < 9223372036854775808) :
    ((ServiceImpl.mk n p).Process ctx batch).2
      = if n < batch.len then some GoError.ErrBlocked else none := by
  unfold ServiceImpl.Process
  simp only [intOfUint64_of_lt h]
  by_cases hlt : n < batch.len
  · rw [if_pos (by exact_mod_cast hlt), if_pos hlt]
  · rw [if_neg (by exact_mod_cast hlt), if_neg hlt]

theorem process_err_of_ge (n : Nat) (p : Duration) (ctx : Context) (batch : Batch)
    (h1 : 9223372036854775808 ≤ n) (h2 : n < 18446744073709551616) :
    ((ServiceImpl.mk n p).Process ctx batch).2 = some GoError.ErrBlocked := by
  unfold ServiceImpl.Process
  simp only [intOfUint64_of_ge h1 h2]
  rw [if_pos (by omega)]

/-! ## What every pass hands to the service -/

theorem loop_calls {σ : Type} (S : Service σ) (params : ServiceParameters) (allItems : Slice) :
    ∀ (k : Nat) (i cursor : Int) (s : σ),
      ∀ it ∈ (loop S params allItems k i cursor s).iterations,
        it.ctx = Context.WithTimeout it.i.toNat Context.Background params.period ∧
        ∃ s' : σ, (it.effects, it.err) = (S.Process s' it.ctx it.batch).1 := by
  intro k
  induction k with
  | zero => intro i cursor s it hit; simp [loop] at hit
  | succ k ih =>
    intro i cursor s it hit
    rw [loop] at hit
    split at hit
    · simp at hit
    · simp only [List.mem_cons] at hit
      rcases hit with rfl | hit
      · exact ⟨rfl, s, rfl⟩
      · exact ih _ _ _ it hit

theorem run_calls {σ : Type} (S : Service σ) (s : σ) (params : ServiceParameters) :
    ∀ it ∈ (run S s params).iterations,
      it.ctx = Context.WithTimeout it.i.toNat Context.Background params.period ∧
      ∃ s' : σ, (it.effects, it.err) = (S.Process s' it.ctx it.batch).1 := by
  unfold run
  cases makeItems params.numberOfItems with
  | none => intro it hit; simp at hit
  | some allItems =>
    cases batchAmount params with
    | none => intro it hit; simp at hit
    | some amount => exact loop_calls S params allItems _ _ _ s

theorem loop_getLimits {σ : Type} (S : Service σ) (g : σ → Nat × Duration)
    (params : ServiceParameters) (allItems : Slice) :
    ∀ (k : Nat) (i cursor : Int) (s : σ),
      loop ⟨g, S.Process⟩ params allItems k i cursor s = loop S params allItems k i cursor s := by
  intro k
  induction k with
  | zero => intro i cursor s; rfl
  | succ k ih =>
    intro i cursor s
    rw [loop, loop]
    simp only [ih]

theorem addInt_cases {c b : Int} (hc0 : 0 ≤ c) (hc : c ≤ maxInt) (hb0 : 0 < b)
    (hb : b ≤ maxInt) : addInt c b = c + b ∨ addInt c b < 0 := by
  unfold addInt wrapInt
  unfold maxInt at hc hb
  omega

theorem loop_len_le {σ : Type} (S : Service σ) (params : ServiceParameters) (allItems : Slice)
    (hb : 0 < params.batchSize) (hbmax : params.batchSize ≤ maxInt)
    (hnmax : params.numberOfItems ≤ maxInt) :
    ∀ (k : Nat) (i cursor : Int) (s : σ),
      ∀ it ∈ (loop S params allItems k i cursor s).iterations,
        (it.batch.len : Int) ≤ params.batchSize := by
  intro k
  induction k with
  | zero => intro i cursor s it hit; simp [loop] at hit
  | succ k ih =>
    intro i cursor s it hit
    rw [loop] at hit
    split at hit
    · simp at hit
    · rename_i batch hslice
      simp only [List.mem_cons] at hit
      rcases hit with rfl | hit
      · simp only []
        generalize hu : addInt cursor params.batchSize = u at hslice
        generalize hub : (if u > params.numberOfItems then params.numberOfItems else u) = ub
          at hslice
        unfold Slice.slice at hslice
        by_cases hcond : 0 ≤ cursor ∧ cursor ≤ ub ∧ ub ≤ (allItems.cap : Int)
        · rw [if_pos hcond] at hslice
          obtain ⟨h0, h1, h2⟩ := hcond
          have hbatch := Option.some.inj hslice
          rw [← hbatch]
          simp only []
          have hubn : ub ≤ params.numberOfItems := by
            rw [← hub]; split <;> omega
          have hcase : u = cursor + params.batchSize ∨ u < 0 := by
            rw [← hu]
            exact addInt_cases h0 (by omega) hb hbmax
          have hlen : ub - cursor ≤ params.batchSize := by
            rw [← hub] at h1 ⊢
            split at h1 <;> rename_i hgt <;> simp only [hgt, if_true, if_false] <;> omega
          omega
        · rw [if_neg hcond] at hslice
          simp at hslice
      · exact ih _ _ _ it hit


theorem run_len_le {σ : Type} (S : Service σ) (s : σ) (params : ServiceParameters)
    (hb : 0 < params.batchSize) (hbmax : params.batchSize ≤ maxInt)
    (hnmax : params.numberOfItems ≤ maxInt) :
    ∀ it ∈ (run S s params).iterations, (it.batch.len : Int) ≤ params.batchSize := by
  unfold run
  cases makeItems params.numberOfItems with
  | none => intro it hit; simp at hit
  | some allItems =>
    cases batchAmount params with
    | none => intro it hit; simp at hit
    | some amount => exact loop_len_le S params allItems hb hbmax hnmax _ _ _ s

theorem run_impl (sv : ServiceImpl) (params : ServiceParameters) :
    ∀ it ∈ (run implService sv params).iterations,
      (it.effects, it.err) = sv.Process it.ctx it.batch := by
  unfold run
  cases makeItems params.numberOfItems with
  | none => intro it hit; simp at hit
  | some allItems =>
    cases batchAmount params with
    | none => intro it hit; simp at hit
    | some amount => exact loop_impl sv params allItems _ _ _

theorem run_printed {σ : Type} (S : Service σ) (s : σ) (params : ServiceParameters) :
    ∀ it ∈ (run S s params).iterations,
      it.printed = if it.err = some GoError.ErrBlocked then ["Service is blocked"] else [] := by
  unfold run
  cases makeItems params.numberOfItems with
  | none => intro it hit; simp at hit
  | some allItems =>
    cases batchAmount params with
    | none => intro it hit; simp at hit
    | some amount => exact loop_printed S params allItems _ _ _ s

theorem run_getLimits {σ : Type} (S : Service σ) (g : σ → Nat × Duration) (s : σ)
    (params : ServiceParameters) : run ⟨g, S.Process⟩ s params = run S s params := by
  unfold run
  cases makeItems params.numberOfItems with
  | none => rfl
  | some allItems =>
    cases batchAmount params with
    | none => rfl
    | some amount => exact loop_getLimits S g params allItems _ _ _ s

theorem uint64OfInt_of_nonneg {b : Int} (h0 : 0 ≤ b) (h1 : b ≤ maxInt) :
    uint64OfInt b = b.toNat ∧ b.toNat < 9223372036854775808 := by
  unfold uint64OfInt
  unfold maxInt at h1
  rw [Int.emod_eq_of_lt h0 (by omega)]
  exact ⟨rfl, by omega⟩

theorem mathCeil_float64OfInt (q : Int) : mathCeil (float64OfInt q) = float64OfInt q := by
  unfold mathCeil float64OfInt
  split
  · rw [Int.ceil_natCast, Int.cast_natCast]
  · rw [Int.ceil_neg, Int.floor_natCast, Int.cast_neg, Int.cast_natCast]

/-! ## Runs whose batch count differs from the quotient -/

theorem loop_pass {σ : Type} (S : Service σ) (B N : Nat) (d : Duration) (hB : 0 < B)
    (hov : (N : Int) + (B : Int) ≤ maxInt) (k i : Nat) (s : σ) (hiB : i * B ≤ N)
    (hi : i ≤ N) :
    loop S ⟨(B : Int), d, (N : Int)⟩ ⟨0, N, N⟩ (k + 1) (i : Int) ((i * B : Nat) : Int) s =
      ⟨⟨(i : Int), ((i * B : Nat) : Int), ((min (i * B + B) N : Nat) : Int),
          ⟨i * B, min (i * B + B) N - i * B, N - i * B⟩,
          Context.WithTimeout i Context.Background d,
          (S.Process s (Context.WithTimeout i Context.Background d)
            ⟨i * B, min (i * B + B) N - i * B, N - i * B⟩).1.1,
          (S.Process s (Context.WithTimeout i Context.Background d)
            ⟨i * B, min (i * B + B) N - i * B, N - i * B⟩).1.2,
          if (S.Process s (Context.WithTimeout i Context.Background d)
            ⟨i * B, min (i * B + B) N - i * B, N - i * B⟩).1.2 = some GoError.ErrBlocked
          then ["Service is blocked"] else []⟩ ::
        (loop S ⟨(B : Int), d, (N : Int)⟩ ⟨0, N, N⟩ k ((i + 1 : Nat) : Int)
          (((i + 1) * B : Nat) : Int) (S.Process s (Context.WithTimeout i Context.Background d)
            ⟨i * B, min (i * B + B) N - i * B, N - i * B⟩).2).iterations,
       (loop S ⟨(B : Int), d, (N : Int)⟩ ⟨0, N, N⟩ k ((i + 1 : Nat) : Int)
          (((i + 1) * B : Nat) : Int) (S.Process s (Context.WithTimeout i Context.Background d)
            ⟨i * B, min (i * B + B) N - i * B, N - i * B⟩).2).exit⟩ := by
  have hadd : addInt ((i * B : Nat) : Int) (B : Int) = ((i * B + B : Nat) : Int) :=
    addInt_natCast _ _ (by omega)
  have hmax : maxInt = 9223372036854775807 := rfl
  have hinc : addInt (i : Int) 1 = ((i + 1 : Nat) : Int) :=
    addInt_natCast i 1 (by push_cast; omega)
  have hcur : ((i * B + B : Nat) : Int) = (((i + 1) * B : Nat) : Int) := by
    rw [Nat.succ_mul]
  have hslice := slice_allItems (i * B) (min (i * B + B) N) N (by omega) (by omega)
  rw [loop]
  simp only [hadd, upper_bound_eq, hslice, hinc, Int.toNat_ofNat]
  rw [hcur]

theorem loop_pass_panics {σ : Type} (S : Service σ) (B N : Nat) (d : Duration) (hB : 0 < B)
    (hov : (N : Int) + (B : Int) ≤ maxInt) (k : Nat) (i : Int) (c : Nat) (s : σ)
    (hcN : N < c) (hc : c ≤ N + B) :
    loop S ⟨(B : Int), d, (N : Int)⟩ ⟨0, N, N⟩ (k + 1) i (c : Int) s
      = ⟨[], Exit.PanicSliceBounds⟩ := by
  have hmax : maxInt = 9223372036854775807 := rfl
  have hcase := addInt_cases (c := (c : Int)) (b := (B : Int)) (by omega) (by omega)
    (by omega) (by omega)
  have hsl : Slice.slice ⟨0, N, N⟩ (c : Int)
      (if addInt (c : Int) (B : Int) > (N : Int) then (N : Int)
        else addInt (c : Int) (B : Int)) = none := by
    generalize addInt (c : Int) (B : Int) = u at hcase
    unfold Slice.slice
    rw [if_neg]
    intro h
    obtain ⟨-, h1, -⟩ := h
    split at h1 <;> omega
  rw [loop]
  simp only [hsl]

theorem loop_slots_then_panic {σ : Type} (S : Service σ) (B N : Nat) (d : Duration)
    (hB : 0 < B) (hov : (N : Int) + (B : Int) ≤ maxInt) :
    ∀ (k i : Nat) (s : σ), i ≤ N / B + 1 → N / B + 2 ≤ i + k →
      (loop S ⟨(B : Int), d, (N : Int)⟩ ⟨0, N, N⟩ k (i : Int) ((i * B : Nat) : Int) s).exit
          = Exit.PanicSliceBounds ∧
      (loop S ⟨(B : Int), d, (N : Int)⟩ ⟨0, N, N⟩ k (i : Int)
          ((i * B : Nat) : Int) s).iterations.map Iteration.slot
        = (List.range' i (N / B + 1 - i)).map (slotAt B N d) := by
  intro k
  induction k with
  | zero => intro i s h1 h2; omega
  | succ k ih =>
    intro i s h1 h2
    have hdm := Nat.div_add_mod N B
    have hml := Nat.mod_lt N hB
    rw [Nat.mul_comm] at hdm
    rcases Nat.lt_or_ge i (N / B + 1) with hlt | hge
    · have hiq : i ≤ N / B := Nat.lt_succ_iff.1 hlt
      have hiB : i * B ≤ N := (Nat.le_div_iff_mul_le hB).1 hiq
      have hi : i ≤ N := le_trans (Nat.le_mul_of_pos_right i hB) hiB
      rw [loop_pass S B N d hB hov k i s hiB hi]
      obtain ⟨ih1, ih2⟩ := ih (i + 1) (S.Process s (Context.WithTimeout i Context.Background d)
        ⟨i * B, min (i * B + B) N - i * B, N - i * B⟩).2 (by omega) (by omega)
      refine ⟨ih1, ?_⟩
      have hlen : N / B + 1 - i = (N / B + 1 - (i + 1)) + 1 := by omega
      rw [hlen, List.range'_succ, List.map_cons, List.map_cons, ih2]
      rfl
    · have hi : i = N / B + 1 := by omega
      have hiB : i * B = N / B * B + B := by rw [hi, Nat.succ_mul]
      rw [loop_pass_panics S B N d hB hov k (i : Int) (i * B) s (by omega) (by omega)]
      have hz : N / B + 1 - i = 0 := by omega
      rw [hz]
      exact ⟨rfl, rfl⟩


theorem makeItems_natCast (N : Nat) : makeItems (N : Int) = some ⟨0, N, N⟩ := by
  unfold makeItems
  rw [if_neg (by omega)]
  simp

theorem run_slots_of_amount {σ : Type} (S : Service σ) (s : σ) (B N : Nat) (d : Duration)
    (hB : 0 < B) (hov : (N : Int) + (B : Int) ≤ maxInt) (a : Nat)
    (ha : batchAmount ⟨(B : Int), d, (N : Int)⟩ = some (a : Int)) (hfit : a * B ≤ N) :
    (run S s ⟨(B : Int), d, (N : Int)⟩).exit = Exit.Returned ∧
    (run S s ⟨(B : Int), d, (N : Int)⟩).iterations.map Iteration.slot
      = (List.range (a + 1)).map (slotAt B N d) := by
  have hk : ((a : Int) + 1).toNat = a + 1 := by
    rw [← Nat.cast_succ, Int.toNat_ofNat]
  have h := loop_slots S B N d hB hov (a + 1) 0 s (by simpa using hfit)
  simp only [Nat.zero_mul, Nat.cast_zero] at h
  unfold run
  simp only [makeItems_natCast, ha, hk]
  rw [List.range_eq_range']
  exact h

theorem run_then_panic {σ : Type} (S : Service σ) (s : σ) (B N : Nat) (d : Duration)
    (hB : 0 < B) (hov : (N : Int) + (B : Int) ≤ maxInt) (a : Nat)
    (ha : batchAmount ⟨(B : Int), d, (N : Int)⟩ = some (a : Int)) (hgt : N / B < a) :
    (run S s ⟨(B : Int), d, (N : Int)⟩).exit = Exit.PanicSliceBounds ∧
    (run S s ⟨(B : Int), d, (N : Int)⟩).iterations.map Iteration.slot
      = (List.range (N / B + 1)).map (slotAt B N d) := by
  have hk : ((a : Int) + 1).toNat = a + 1 := by
    rw [← Nat.cast_succ, Int.toNat_ofNat]
  have hpasses : N / B + 2 ≤ 0 + (a + 1) := by
    generalize N / B = q at hgt
    omega
  have h := loop_slots_then_panic S B N d hB hov (a + 1) 0 s (Nat.zero_le _) hpasses
  simp only [Nat.zero_mul, Nat.cast_zero, Nat.sub_zero] at h
  unfold run
  simp only [makeItems_natCast, ha, hk]
  rw [List.range_eq_range']
  exact h

theorem finalCursor_of_slots (r : Run) (params : ServiceParameters) (B N : Nat) (d : Duration)
    (m : Nat) (h : r.iterations.map Iteration.slot = (List.range (m + 1)).map (slotAt B N d)) :
    r.finalCursor params = addInt ((m * B : Nat) : Int) params.batchSize := by
  have hl := congrArg List.getLast? h
  rw [List.getLast?_map, List.getLast?_map, List.range_succ, List.getLast?_concat] at hl
  unfold Run.finalCursor
  cases hlast : r.iterations.getLast? with
  | none => rw [hlast] at hl; simp at hl
  | some it =>
    rw [hlast] at hl
    have hslot : it.slot = slotAt B N d m := Option.some.inj hl
    have hlb : it.lb = ((m * B : Nat) : Int) := congrArg (fun t => t.2.1) hslot
    simp only [hlb]

end General

/-! ## The claims -/

set_option maxRecDepth 100000

/-- Above `2 ^ 53` the conversion to `float64` rounds: for batchSize = 1 and
numberOfItems = 2^53 + 3 the batch count comes out as 2^53 + 4, one more than the quotient,
so the loop would go on past the last item. -/
theorem batchAmount_rounds_up :
    batchAmount ⟨1, 2 * Second, 9007199254740995⟩ = some 9007199254740996 := by
  decide

/-- C1, as amended: for batchSize > 0, numberOfItems ≥ 0, numberOfItems + batchSize within
the range of `int` and a quotient numberOfItems / batchSize that `float64` holds exactly,
the batches of a run, whatever the service, are pairwise disjoint index ranges whose
concatenation in iteration order is `0 .. numberOfItems - 1`; every index lies in exactly
one batch and the batch lengths add up to numberOfItems. -/
theorem batches_partition_items {σ : Type} (S : Service σ) (s : σ)
    (params : ServiceParameters) (hb : 0 < params.batchSize) (hn : 0 ≤ params.numberOfItems)
    (hov : params.numberOfItems + params.batchSize ≤ maxInt)
    (hq : params.numberOfItems / params.batchSize ≤ 2 ^ 53) :
    (run S s params).Partitions params.numberOfItems.toNat := by
  obtain ⟨B, N, hp, hB, hov', hq', -, hN⟩ := valid_params params hb hn hov hq
  rw [hN, hp]
  apply partitions_of_flatten
  rw [run_batches S s B N _ hB hov' hq', List.map_map]
  have h := flatten_ranges B N hB (N / B + 1) (Nat.le_refl _)
  rw [min_succ_div_mul B N hB] at h
  exact h

theorem batches_partition_items_witness :
    (0 < mainParams.batchSize ∧ 0 ≤ mainParams.numberOfItems ∧
      mainParams.numberOfItems + mainParams.batchSize ≤ maxInt ∧
      mainParams.numberOfItems / mainParams.batchSize ≤ 2 ^ 53) ∧
    main.Partitions mainParams.numberOfItems.toNat :=
  ⟨by decide, batches_partition_items implService (mainService mainParams) mainParams
    (by decide) (by decide) (by decide) (by decide)⟩

/-- C1 fails as stated: with batchSize = 2^62 + 1 and numberOfItems = 2^63 - 1 the sum
`cursor + batchSize` of the second pass wraps around, the slice expression panics, and the
only batch handed over holds 2^62 + 1 of the 2^63 - 1 items. -/
theorem batches_partition_items_overflow :
    ¬ (run implService (mainService ⟨4611686018427387905, 2 * Second, 9223372036854775807⟩)
        ⟨4611686018427387905, 2 * Second, 9223372036854775807⟩).Partitions
          9223372036854775807 :=
  fun h => absurd h.2.2.2 (by decide)

/-- C2, the failing input: a `ServiceImpl` of capacity 2^63 is handed the empty batch.  Its
length 0 is at most the capacity, yet `int(s.n)` is -2^63 and `Process` returns
`ErrBlocked`. -/
theorem process_rejects_empty_batch :
    (0 : Nat) ≤ 9223372036854775808 ∧
    intOfUint64 9223372036854775808 = -9223372036854775808 ∧
    ((ServiceImpl.mk 9223372036854775808 (2 * Second)).Process Context.Background
      ⟨0, 0, 0⟩).2 = some GoError.ErrBlocked := by
  decide

/-- C3, as amended: for batchSize > 0, numberOfItems ≥ 0, numberOfItems + batchSize within
the range of `int` and a quotient numberOfItems / batchSize that `float64` holds exactly,
the run returns without a panic, and every pass of the loop has
0 ≤ lb ≤ ub ≤ numberOfItems, its batch is the value of `allItems[lb:ub]`, and a pass that
starts at or past the last item gets an empty batch. -/
theorem slice_bounds_in_range {σ : Type} (S : Service σ) (s : σ)
    (params : ServiceParameters) (hb : 0 < params.batchSize) (hn : 0 ≤ params.numberOfItems)
    (hov : params.numberOfItems + params.batchSize ≤ maxInt)
    (hq : params.numberOfItems / params.batchSize ≤ 2 ^ 53) :
    (run S s params).exit = Exit.Returned ∧
    ∀ it ∈ (run S s params).iterations,
      0 ≤ it.lb ∧ it.lb ≤ it.ub ∧ it.ub ≤ params.numberOfItems ∧
      (makeItems params.numberOfItems).bind (fun allItems => allItems.slice it.lb it.ub)
        = some it.batch ∧
      (params.numberOfItems ≤ it.lb → it.batch.len = 0) := by
  obtain ⟨B, N, hp, hB, hov', hq', -, -⟩ := valid_params params hb hn hov hq
  rw [hp]
  refine ⟨(run_slots S s B N _ hB hov' hq').1, ?_⟩
  intro it hit
  obtain ⟨j, hj, hslot⟩ := run_iteration_slot S s B N _ hB hov' hq' it hit
  have hlb : it.lb = ((j * B : Nat) : Int) := congrArg (fun t => t.2.1) hslot
  have hub : it.ub = ((min (j * B + B) N : Nat) : Int) := congrArg (fun t => t.2.2.1) hslot
  have hbatch : it.batch = ⟨j * B, min (j * B + B) N - j * B, N - j * B⟩ :=
    congrArg (fun t => t.2.2.2.1) hslot
  have hmake : makeItems (N : Int) = some ⟨0, N, N⟩ := by
    unfold makeItems
    rw [if_neg (by omega)]
    simp
  rw [hlb, hub, hbatch]
  simp only [hmake, Option.some_bind]
  refine ⟨by omega, by omega, by omega,
    slice_allItems (j * B) (min (j * B + B) N) N (by omega) (by omega), ?_⟩
  intro h
  omega

theorem slice_bounds_in_range_witness :
    (0 < mainParams.batchSize ∧ 0 ≤ mainParams.numberOfItems ∧
      mainParams.numberOfItems + mainParams.batchSize ≤ maxInt ∧
      mainParams.numberOfItems / mainParams.batchSize ≤ 2 ^ 53) ∧
    main.exit = Exit.Returned ∧
    ∀ it ∈ main.iterations,
      0 ≤ it.lb ∧ it.lb ≤ it.ub ∧ it.ub ≤ mainParams.numberOfItems ∧
      (makeItems mainParams.numberOfItems).bind (fun allItems => allItems.slice it.lb it.ub)
        = some it.batch ∧
      (mainParams.numberOfItems ≤ it.lb → it.batch.len = 0) :=
  ⟨by decide, slice_bounds_in_range implService (mainService mainParams) mainParams
    (by decide) (by decide) (by decide) (by decide)⟩

/-- C3 fails as stated: with batchSize = numberOfItems = 2^63 - 1 the second pass has
lb = 2^63 - 1 and `cursor + batchSize` wraps to -2, so `allItems[lb:ub]` is out of range
and main panics. -/
theorem slice_bounds_overflow :
    (run implService (mainService ⟨9223372036854775807, 2 * Second, 9223372036854775807⟩)
      ⟨9223372036854775807, 2 * Second, 9223372036854775807⟩).exit = Exit.PanicSliceBounds ∧
    addInt 9223372036854775807 9223372036854775807 = -2 := by
  decide

/-- C4: the slicing takes nothing from the service.  For any two services, whatever their
state and whatever errors they return, and any parameters, the two runs end the same way,
perform the same number of passes, and hand the same batches with the same `(lb, ub)` to
`Process` in the same order, one call per pass. -/
theorem slicing_independent_of_service {σ τ : Type} (S : Service σ) (T : Service τ)
    (s : σ) (t : τ) (params : ServiceParameters) :
    (run S s params).exit = (run T t params).exit ∧
    (run S s params).iterations.length = (run T t params).iterations.length ∧
    (run S s params).bounds = (run T t params).bounds ∧
    (run S s params).batches = (run T t params).batches := by
  obtain ⟨h1, h2⟩ := run_independent S T s t params
  refine ⟨h1, ?_, ?_, ?_⟩
  · have h := congrArg List.length h2
    rw [List.length_map, List.length_map] at h
    exact h
  · have h := congrArg (List.map (fun x : Int × Int × Int × Batch × Context => (x.2.1, x.2.2.1))) h2
    rw [List.map_map, List.map_map] at h
    exact h
  · have h := congrArg (List.map (fun x : Int × Int × Int × Batch × Context => x.2.2.2.1)) h2
    rw [List.map_map, List.map_map] at h
    exact h

/-- C5 fails as stated: the run with the parameters written in main does not consist of
four passes with batch sizes 25, 25, 19, 0. -/
theorem scenario_a_no_trailing_pass :
    ¬ (main.iterations.length = 4 ∧ main.sizes = [25, 25, 19, 0]) := by
  decide

/-- C5, as amended: with batchSize = 25, numberOfItems = 69, period = 2s and the service
capacity 25 that main sets up, the loop makes exactly three passes, with batches of 25, 25
and 19 items and no trailing empty one; every `Process` call returns `nil`, main writes no
"Service is blocked" line, and main returns. -/
theorem scenario_a :
    mainParams = ⟨25, 2 * Second, 69⟩ ∧
    mainService mainParams = ⟨25, 2 * Second⟩ ∧
    main.iterations.length = 3 ∧
    main.sizes = [25, 25, 19] ∧
    main.bounds = [(0, 25), (25, 50), (50, 69)] ∧
    main.errors = [none, none, none] ∧
    main.output = [] ∧
    main.exit = Exit.Returned := by
  decide

/-- C6, scenario B: with batchSize = 30, numberOfItems = 69 and a `ServiceImpl` of capacity
25 (any periods), the loop hands over batches of 30, 30 and 9 items in that order;
`Process` returns `ErrBlocked` for the first two and `nil` for the third, and main writes
"Service is blocked" twice. -/
theorem scenario_b (period p : Duration) :
    (run implService ⟨25, p⟩ ⟨30, period, 69⟩).sizes = [30, 30, 9] ∧
    (run implService ⟨25, p⟩ ⟨30, period, 69⟩).errors
      = [some GoError.ErrBlocked, some GoError.ErrBlocked, none] ∧
    (run implService ⟨25, p⟩ ⟨30, period, 69⟩).output
      = ["Service is blocked", "Service is blocked"] ∧
    (run implService ⟨25, p⟩ ⟨30, period, 69⟩).exit = Exit.Returned :=
  ⟨rfl, rfl, rfl, rfl⟩

/-- C7, the failing input: batchSize = 25, numberOfItems = 0 and a `ServiceImpl` of capacity
2^63.  The loop makes one pass with lb = ub = 0, and `Process` returns `ErrBlocked` for
that empty batch. -/
theorem scenario_c_rejected :
    (run implService ⟨9223372036854775808, 2 * Second⟩ ⟨25, 2 * Second, 0⟩).bounds
      = [(0, 0)] ∧
    (run implService ⟨9223372036854775808, 2 * Second⟩ ⟨25, 2 * Second, 0⟩).sizes = [0] ∧
    (run implService ⟨9223372036854775808, 2 * Second⟩ ⟨25, 2 * Second, 0⟩).errors
      = [some GoError.ErrBlocked] ∧
    (run implService ⟨9223372036854775808, 2 * Second⟩ ⟨25, 2 * Second, 0⟩).output
      = ["Service is blocked"] := by
  decide

/-- C8, the failing input: for the parameters written in main (numberOfItems = 69,
batchSize = 25) the program computes batchAmount = 2, while the ceiling of the exact
quotient 69 / 25 is 3. -/
theorem batchAmount_truncates :
    batchAmount mainParams = some 2 ∧ ceilQuotient mainParams = 3 := by
  refine ⟨by decide, ?_⟩
  unfold ceilQuotient mainParams
  rw [Int.ceil_eq_iff]
  norm_num

/-- C9, as amended: for batchSize > 0, numberOfItems ≥ 0, numberOfItems + batchSize within
the range of `int` and a quotient numberOfItems / batchSize that `float64` holds exactly,
every batch has at most batchSize items, the batches before the final one are
numberOfItems / batchSize in number and have exactly batchSize items each (so none of them
is empty), and the final batch has exactly numberOfItems mod batchSize items, so it is
empty exactly when batchSize divides numberOfItems. -/
theorem batch_sizes {σ : Type} (S : Service σ) (s : σ)
    (params : ServiceParameters) (hb : 0 < params.batchSize) (hn : 0 ≤ params.numberOfItems)
    (hov : params.numberOfItems + params.batchSize ≤ maxInt)
    (hq : params.numberOfItems / params.batchSize ≤ 2 ^ 53) :
    (∀ it ∈ (run S s params).iterations, (it.batch.len : Int) ≤ params.batchSize) ∧
    (run S s params).sizes.dropLast
      = List.replicate (params.numberOfItems / params.batchSize).toNat
          params.batchSize.toNat ∧
    (∀ l ∈ (run S s params).sizes.dropLast, l ≠ 0) ∧
    (run S s params).sizes.getLast?
      = some (params.numberOfItems % params.batchSize).toNat ∧
    ((run S s params).sizes.getLast? = some 0 ↔ params.batchSize ∣ params.numberOfItems) := by
  obtain ⟨B, N, hp, hB, hov', hq', -, -⟩ := valid_params params hb hn hov hq
  rw [hp]
  have hsz := run_sizes S s B N params.period hB hov' hq'
  have hdiv : ((N : Int) / (B : Int)).toNat = N / B := by
    rw [← Int.natCast_div, Int.toNat_ofNat]
  have hmod : ((N : Int) % (B : Int)).toNat = N % B := by
    rw [← Int.natCast_mod, Int.toNat_ofNat]
  simp only [hsz, hdiv, hmod, Int.toNat_ofNat, List.dropLast_concat, List.getLast?_concat]
  refine ⟨?_, trivial, ?_, trivial, ?_⟩
  · intro it hit
    have hmem : it.batch.len ∈ (run S s ⟨(B : Int), params.period, (N : Int)⟩).sizes :=
      List.mem_map_of_mem (fun it => it.batch.len) hit
    rw [hsz, List.mem_append, List.mem_singleton] at hmem
    have h2 := Nat.mod_lt N hB
    rcases hmem with h | h
    · rw [(List.mem_replicate.1 h).2]
    · rw [h]; exact_mod_cast le_of_lt h2
  · intro l hl
    rw [(List.mem_replicate.1 hl).2]
    omega
  · rw [Option.some.injEq, Int.natCast_dvd_natCast, Nat.dvd_iff_mod_eq_zero]

theorem batch_sizes_witness :
    (0 < mainParams.batchSize ∧ 0 ≤ mainParams.numberOfItems ∧
      mainParams.numberOfItems + mainParams.batchSize ≤ maxInt ∧
      mainParams.numberOfItems / mainParams.batchSize ≤ 2 ^ 53) ∧
    main.sizes.dropLast = [25, 25] ∧ main.sizes.getLast? = some 19 :=
  ⟨by decide,
    (batch_sizes implService (mainService mainParams) mainParams
      (by decide) (by decide) (by decide) (by decide)).2.1,
    (batch_sizes implService (mainService mainParams) mainParams
      (by decide) (by decide) (by decide) (by decide)).2.2.2.1⟩

/-- C9 fails as stated: with batchSize = numberOfItems = 2^63 - 1 the last batch handed
over has 2^63 - 1 items, not numberOfItems mod batchSize = 0 (the pass after it panics). -/
theorem batch_sizes_overflow :
    (run implService (mainService ⟨9223372036854775807, 2 * Second, 9223372036854775807⟩)
      ⟨9223372036854775807, 2 * Second, 9223372036854775807⟩).sizes.getLast?
        = some 9223372036854775807 ∧
    ((9223372036854775807 : Int) % 9223372036854775807).toNat = 0 := by
  decide

/-- C10, as amended: for numberOfItems ≥ 0, a batchSize of 0 stops main before the loop
starts, with the integer-divide-by-zero panic of the batch count; a negative batchSize is
not rejected: when numberOfItems < -batchSize the first pass of the loop panics at the
slice expression, and otherwise the loop body is never entered and main returns normally.
In all three cases no batch reaches the service. -/
theorem nonpositive_batch_size {σ : Type} (S : Service σ) (s : σ)
    (params : ServiceParameters)
    (hb : params.batchSize ≤ 0) (hmin : minInt ≤ params.batchSize)
    (hn : 0 ≤ params.numberOfItems) (hmax : params.numberOfItems ≤ maxInt) :
    run S s params =
      if params.batchSize = 0 then ⟨[], Exit.PanicDivideByZero⟩
      else if params.numberOfItems < -params.batchSize then ⟨[], Exit.PanicSliceBounds⟩
      else ⟨[], Exit.Returned⟩ := by
  obtain ⟨b, d, n⟩ := params
  simp only [] at hb hmin hn hmax ⊢
  obtain ⟨N, rfl⟩ := Int.eq_ofNat_of_zero_le hn
  have hmake : makeItems (N : Int) = some ⟨0, N, N⟩ := by
    unfold makeItems
    rw [if_neg (by omega)]
    simp
  unfold run
  simp only [hmake]
  by_cases h0 : b = 0
  · subst h0
    have : batchAmount ⟨0, d, (N : Int)⟩ = none := by
      unfold batchAmount divInt
      simp
    simp only [this, if_true]
  · obtain ⟨M, hM⟩ := Int.eq_ofNat_of_zero_le (show 0 ≤ -b by omega)
    have hb' : b = -(M : Int) := by omega
    subst hb'
    have hMpos : 0 < M := by omega
    obtain ⟨a, ha, hlt, hge⟩ := batchAmount_neg N M d hMpos hmax
    simp only [ha, if_neg h0]
    by_cases hNM : N < M
    · have hcond : (N : Int) < - -(M : Int) := by omega
      rw [if_pos hcond, hlt hNM]
      have hone : ((0 : Int) + 1).toNat = 1 := rfl
      rw [hone, loop]
      have hub : addInt 0 (-(M : Int)) = -(M : Int) := by
        unfold addInt
        rw [Int.zero_add, wrapInt_of_range hmin (by unfold maxInt; omega)]
      have hsl : Slice.slice ⟨0, N, N⟩ 0
          (if -(M : Int) > (N : Int) then (N : Int) else -(M : Int)) = none := by
        have hif : (if -(M : Int) > (N : Int) then (N : Int) else -(M : Int)) = -(M : Int) :=
          if_neg (by omega)
        rw [hif]
        unfold Slice.slice
        rw [if_neg (by omega)]
      simp only [hub, hsl]
    · have hcond : ¬ (N : Int) < - -(M : Int) := by omega
      rw [if_neg hcond]
      have hzero : (a + 1).toNat = 0 := by
        have := hge (by omega)
        exact Int.toNat_eq_zero.2 (by omega)
      rw [hzero, loop]

/-- The amended C10 at batchSize = 0, numberOfItems = 69. -/
theorem nonpositive_batch_size_witness :
    ((0 : Int) ≤ 0 ∧ minInt ≤ 0 ∧ (0 : Int) ≤ 69 ∧ (69 : Int) ≤ maxInt) ∧
    run implService (mainService ⟨0, 2 * Second, 69⟩) ⟨0, 2 * Second, 69⟩
      = ⟨[], Exit.PanicDivideByZero⟩ :=
  ⟨by decide, nonpositive_batch_size implService (mainService ⟨0, 2 * Second, 69⟩)
    ⟨0, 2 * Second, 69⟩ (by decide) (by decide) (by decide) (by decide)⟩

/-- C10 fails as stated: with batchSize = -25 and numberOfItems = 9 nothing rejects the
configuration before the loop; the batch count is 0, the loop is entered, and its first
pass panics at the slice expression `allItems[0:-25]`. -/
theorem nonpositive_batch_size_panics_in_loop :
    batchAmount ⟨-25, 2 * Second, 9⟩ = some 0 ∧
    (run implService (mainService ⟨-25, 2 * Second, 9⟩) ⟨-25, 2 * Second, 9⟩).exit
      = Exit.PanicSliceBounds := by
  decide

/-- C11, the failing input: the run with the parameters written in main.  Pass 1 starts at
position 3 of the trace, and at that point the `cancel` of pass 0 is still pending; no
`cancel` runs before the last `Process` call has returned, and the three of them run when
main returns, the latest first. -/
theorem cancel_pending_across_passes :
    main.trace.take 4 =
      [Event.WithTimeout (Context.WithTimeout 0 Context.Background (2 * Second)),
       Event.Defer (Context.WithTimeout 0 Context.Background (2 * Second)),
       Event.Process (Context.WithTimeout 0 Context.Background (2 * Second)) ⟨0, 25, 69⟩
         [SvcEvent.Println "Processed " 25,
          SvcEvent.AwaitDone (Context.WithTimeout 0 Context.Background (2 * Second))] none,
       Event.WithTimeout (Context.WithTimeout 1 Context.Background (2 * Second))] ∧
    pendingCancels (main.trace.take 3)
      = [Context.WithTimeout 0 Context.Background (2 * Second)] ∧
    pendingCancels (main.trace.take 9)
      = [Context.WithTimeout 2 Context.Background (2 * Second),
         Context.WithTimeout 1 Context.Background (2 * Second),
         Context.WithTimeout 0 Context.Background (2 * Second)] ∧
    main.trace.drop 9
      = [Event.Cancel (Context.WithTimeout 2 Context.Background (2 * Second)),
         Event.Cancel (Context.WithTimeout 1 Context.Background (2 * Second)),
         Event.Cancel (Context.WithTimeout 0 Context.Background (2 * Second))] ∧
    pendingCancels main.trace = [] := by
  decide

/-- C12: whatever the service does, every pass of the loop creates its context with
`context.WithTimeout(context.Background(), params.period)`: the parent is the background
context, never the context of an earlier pass, and the timeout is exactly `params.period`;
that context and the batch of the pass are what `Process` is called with.  The contexts of
a run are the same for any two services, so the deadline of a pass does not depend on how
earlier calls ended. -/
theorem fresh_deadline_each_pass {σ τ : Type} (S : Service σ) (T : Service τ) (s : σ) (t : τ)
    (params : ServiceParameters) :
    (∀ it ∈ (run S s params).iterations,
      it.ctx = Context.WithTimeout it.i.toNat Context.Background params.period ∧
      ∃ s' : σ, (it.effects, it.err) = (S.Process s' it.ctx it.batch).1) ∧
    (run S s params).contexts = (run T t params).contexts := by
  refine ⟨run_calls S s params, ?_⟩
  have h := congrArg (List.map (fun x : Int × Int × Int × Batch × Context => x.2.2.2.2))
    (run_independent S T s t params).2
  rw [List.map_map, List.map_map] at h
  exact h

/-- C13: `ServiceImpl.Process` has two outcomes, told apart by `int(s.n) < len(batch)`.
A rejected batch returns `ErrBlocked` with no effect at all: no line written, no wait.
An admitted batch writes one line "Processed " with `len(batch)`, then waits for the done
channel of the context it was given, then returns `nil`. -/
theorem process_outcomes (s : ServiceImpl) (ctx : Context) (batch : Batch) :
    (intOfUint64 s.n < (batch.len : Int) ∧
      s.Process ctx batch = ([], some GoError.ErrBlocked)) ∨
    (¬ intOfUint64 s.n < (batch.len : Int) ∧
      s.Process ctx batch
        = ([SvcEvent.Println "Processed " batch.len, SvcEvent.AwaitDone ctx], none)) := by
  unfold ServiceImpl.Process
  by_cases h : intOfUint64 s.n < (batch.len : Int)
  · left; exact ⟨h, if_pos h⟩
  · right; exact ⟨h, if_neg h⟩

/-- C14, as amended: `math.Ceil` returns its argument here, since the `float64` of an
integer has no fraction.  For batchSize > 0, numberOfItems ≥ 0, numberOfItems + batchSize
within the range of `int` and a quotient numberOfItems / batchSize of at most 2^53, which
`float64` holds exactly, batchAmount is the truncated quotient numberOfItems / batchSize
and the loop makes exactly numberOfItems / batchSize + 1 passes and ends normally. -/
theorem batchAmount_is_quotient {σ : Type} (S : Service σ) (s : σ)
    (params : ServiceParameters) (hb : 0 < params.batchSize) (hn : 0 ≤ params.numberOfItems)
    (hov : params.numberOfItems + params.batchSize ≤ maxInt)
    (hq : params.numberOfItems / params.batchSize ≤ 2 ^ 53) :
    mathCeil (float64OfInt (params.numberOfItems / params.batchSize))
      = float64OfInt (params.numberOfItems / params.batchSize) ∧
    batchAmount params = some (params.numberOfItems / params.batchSize) ∧
    (run S s params).iterations.length
      = (params.numberOfItems / params.batchSize).toNat + 1 ∧
    (run S s params).exit = Exit.Returned := by
  refine ⟨mathCeil_float64OfInt _, batchAmount_of_valid params hb hn (by omega) hq, ?_⟩
  obtain ⟨B, N, hp, hB, hov', hq', -, -⟩ := valid_params params hb hn hov hq
  rw [hp]
  obtain ⟨h1, h2⟩ := run_slots S s B N params.period hB hov' hq'
  refine ⟨?_, h1⟩
  have h := congrArg List.length h2
  rw [List.length_map, List.length_map, List.length_range] at h
  rw [h, ← Int.natCast_div, Int.toNat_ofNat]

/-- The amended C14 at the parameters written in main: batchAmount = 69 / 25 = 2 and the
loop makes 3 passes. -/
theorem batchAmount_is_quotient_witness :
    (0 < mainParams.batchSize ∧ 0 ≤ mainParams.numberOfItems ∧
      mainParams.numberOfItems + mainParams.batchSize ≤ maxInt ∧
      mainParams.numberOfItems / mainParams.batchSize ≤ 2 ^ 53) ∧
    batchAmount mainParams = some 2 ∧ main.iterations.length = 3 :=
  ⟨by decide,
   (batchAmount_is_quotient implService (mainService mainParams) mainParams
      (by decide) (by decide) (by decide) (by decide)).2.1,
   (batchAmount_is_quotient implService (mainService mainParams) mainParams
      (by decide) (by decide) (by decide) (by decide)).2.2.1⟩

/-- C14 fails as stated: for batchSize = 1 and numberOfItems = 2^53 + 3 the conversion
`float64(numberOfItems / batchSize)` rounds to 2^53 + 4, so batchAmount is not the
truncated quotient 2^53 + 3. -/
theorem batchAmount_not_quotient :
    batchAmount ⟨1, 2 * Second, 9007199254740995⟩ = some 9007199254740996 ∧
    batchAmount ⟨1, 2 * Second, 9007199254740995⟩
      ≠ some ((9007199254740995 : Int) / 1) := by
  decide

/-- C15, as amended: for batchSize > 0, numberOfItems ≥ 0, numberOfItems + batchSize within
the range of `int` and a quotient numberOfItems / batchSize of at most 2^53, and whatever
the service returns, the passes are numbered 0, 1, ..., numberOfItems / batchSize, pass i
starts with cursor = i * batchSize, the cursor is strictly increasing from pass to pass,
the loop ends normally, and then cursor = (numberOfItems / batchSize + 1) * batchSize. -/
theorem cursor_advances_by_batchSize {σ : Type} (S : Service σ) (s : σ)
    (params : ServiceParameters) (hb : 0 < params.batchSize) (hn : 0 ≤ params.numberOfItems)
    (hov : params.numberOfItems + params.batchSize ≤ maxInt)
    (hq : params.numberOfItems / params.batchSize ≤ 2 ^ 53) :
    (run S s params).iterations.map (fun it => it.i)
      = (List.range ((params.numberOfItems / params.batchSize).toNat + 1)).map Int.ofNat ∧
    (∀ it ∈ (run S s params).iterations, it.lb = it.i * params.batchSize) ∧
    ((run S s params).iterations.map (fun it => it.lb)).Pairwise (fun x y => x < y) ∧
    (run S s params).exit = Exit.Returned ∧
    (run S s params).finalCursor params
      = (params.numberOfItems / params.batchSize + 1) * params.batchSize := by
  obtain ⟨B, N, hp, hB, hov', hq', -, -⟩ := valid_params params hb hn hov hq
  rw [hp]
  obtain ⟨h1, h2⟩ := run_slots S s B N params.period hB hov' hq'
  have hdiv : ((N : Int) / (B : Int)).toNat = N / B := by
    rw [← Int.natCast_div, Int.toNat_ofNat]
  have hqB : N / B * B ≤ N := Nat.div_mul_le_self N B
  refine ⟨?_, ?_, ?_, h1, ?_⟩
  · have h := congrArg (List.map (fun x : Int × Int × Int × Batch × Context => x.1)) h2
    rw [List.map_map, List.map_map] at h
    rw [hdiv]
    exact h
  · intro it hit
    obtain ⟨j, -, hslot⟩ := run_iteration_slot S s B N params.period hB hov' hq' it hit
    have hi : it.i = (j : Int) := congrArg (fun t => t.1) hslot
    have hlb : it.lb = ((j * B : Nat) : Int) := congrArg (fun t => t.2.1) hslot
    rw [hi, hlb]
    push_cast
    rfl
  · have h := congrArg (List.map (fun x : Int × Int × Int × Batch × Context => x.2.1)) h2
    rw [List.map_map, List.map_map] at h
    have h' : (run S s ⟨(B : Int), params.period, (N : Int)⟩).iterations.map (fun it => it.lb)
        = (List.range (N / B + 1)).map (fun j => ((j * B : Nat) : Int)) := h
    rw [h', List.pairwise_map]
    refine (List.pairwise_lt_range (N / B + 1)).imp ?_
    intro x y hxy
    have : x * B < y * B := Nat.mul_lt_mul_of_pos_right hxy hB
    exact_mod_cast this
  · rw [finalCursor_of_slots _ _ B N params.period (N / B) h2]
    have hmax : maxInt = 9223372036854775807 := rfl
    rw [addInt_natCast _ _ (by omega), ← Int.natCast_div]
    push_cast
    ring

/-- The amended C15 at the parameters written in main: the passes start at cursor 0, 25
and 50, and the loop ends with cursor = 75. -/
theorem cursor_advances_by_batchSize_witness :
    (0 < mainParams.batchSize ∧ 0 ≤ mainParams.numberOfItems ∧
      mainParams.numberOfItems + mainParams.batchSize ≤ maxInt ∧
      mainParams.numberOfItems / mainParams.batchSize ≤ 2 ^ 53) ∧
    main.exit = Exit.Returned ∧ main.finalCursor mainParams = 75 :=
  ⟨by decide,
   (cursor_advances_by_batchSize implService (mainService mainParams) mainParams
      (by decide) (by decide) (by decide) (by decide)).2.2.2.1,
   (cursor_advances_by_batchSize implService (mainService mainParams) mainParams
      (by decide) (by decide) (by decide) (by decide)).2.2.2.2⟩

/-- C15 fails as stated: for batchSize = 1 and numberOfItems = 2^53 + 1 the batch count
`float64` rounds down to 2^53, the loop makes 2^53 + 1 passes and ends normally with
cursor = 2^53 + 1, not (numberOfItems / batchSize + 1) * batchSize = 2^53 + 2. -/
theorem cursor_at_exit_after_rounding :
    (run implService (mainService ⟨1, 2 * Second, 9007199254740993⟩)
      ⟨1, 2 * Second, 9007199254740993⟩).exit = Exit.Returned ∧
    (run implService (mainService ⟨1, 2 * Second, 9007199254740993⟩)
      ⟨1, 2 * Second, 9007199254740993⟩).finalCursor ⟨1, 2 * Second, 9007199254740993⟩
        = 9007199254740993 ∧
    (9007199254740993 : Int) ≠ (9007199254740993 / 1 + 1) * 1 := by
  have h : (run implService (mainService ⟨1, 2 * Second, 9007199254740993⟩)
        ⟨1, 2 * Second, 9007199254740993⟩).exit = Exit.Returned ∧
      (run implService (mainService ⟨1, 2 * Second, 9007199254740993⟩)
        ⟨1, 2 * Second, 9007199254740993⟩).iterations.map Iteration.slot
        = (List.range (9007199254740992 + 1)).map
            (slotAt 1 9007199254740993 (2 * Second)) :=
    run_slots_of_amount implService (mainService ⟨1, 2 * Second, 9007199254740993⟩)
      1 9007199254740993 (2 * Second) (by decide) (by decide) 9007199254740992 (by decide)
      (by decide)
  have hc := finalCursor_of_slots _ ⟨1, 2 * Second, 9007199254740993⟩ 1 9007199254740993
    (2 * Second) 9007199254740992 h.2
  refine ⟨h.1, ?_, by decide⟩
  rw [hc]
  decide

/-- C16 fails as stated: the calls main makes on the service with the parameters written
in main are three `Process` calls; `GetLimits` is not among them, let alone first. -/
theorem main_makes_no_getLimits_call :
    ¬ (main.serviceCalls.count ServiceCall.GetLimits = 1) ∧
    main.serviceCalls.head? ≠ some ServiceCall.GetLimits ∧
    main.serviceCalls.length = 3 := by
  decide

/-- C16, as amended: main never calls `GetLimits`.  For any service and any parameters the
calls main makes on the service are one `Process` call per pass of the loop, in order, and
nothing else; the run is the same whatever `GetLimits` would have returned. -/
theorem service_calls_are_process_calls {σ : Type} (S : Service σ) (s : σ)
    (params : ServiceParameters) (g : σ → Nat × Duration) :
    (run S s params).serviceCalls.count ServiceCall.GetLimits = 0 ∧
    (run S s params).serviceCalls
      = (run S s params).iterations.map (fun it => ServiceCall.Process it.ctx it.batch) ∧
    (run S s params).serviceCalls.length = (run S s params).iterations.length ∧
    run ⟨g, S.Process⟩ s params = run S s params := by
  refine ⟨?_, rfl, ?_, run_getLimits S g s params⟩
  · rw [List.count_eq_zero]
    intro h
    obtain ⟨it, -, hit⟩ := List.mem_map.1 h
    exact ServiceCall.noConfusion hit
  · exact List.length_map _ _

/-- C17: with the service main sets up, `ServiceImpl{uint64(batchSize), period}`, and any
batchSize > 0 (batchSize and numberOfItems being values of `int`), every `Process` call of
the run returns `nil`, no batch has more than batchSize items, and main never writes
"Service is blocked". -/
theorem wired_service_never_blocks (params : ServiceParameters)
    (hb : 0 < params.batchSize) (hbmax : params.batchSize ≤ maxInt)
    (hnmax : params.numberOfItems ≤ maxInt) :
    (∀ it ∈ (run implService (mainService params) params).iterations,
      (it.batch.len : Int) ≤ params.batchSize ∧ it.err = none ∧ it.printed = []) ∧
    (∀ e ∈ (run implService (mainService params) params).errors, e = none) ∧
    (run implService (mainService params) params).output = [] := by
  have hall : ∀ it ∈ (run implService (mainService params) params).iterations,
      (it.batch.len : Int) ≤ params.batchSize ∧ it.err = none ∧ it.printed = [] := by
    intro it hit
    have hlen := run_len_le implService (mainService params) params hb hbmax hnmax it hit
    have himpl := run_impl (mainService params) params it hit
    have hpr := run_printed implService (mainService params) params it hit
    obtain ⟨hu, hlt⟩ := uint64OfInt_of_nonneg (le_of_lt hb) hbmax
    have herr : it.err = none := by
      have h2 := congrArg Prod.snd himpl
      simp only [] at h2
      rw [h2]
      unfold mainService
      rw [hu, process_err_of_lt _ _ _ _ hlt, if_neg (by omega)]
    refine ⟨hlen, herr, ?_⟩
    rw [hpr, herr]
    rfl
  refine ⟨hall, ?_, ?_⟩
  · intro e he
    obtain ⟨it, hit, rfl⟩ := List.mem_map.1 he
    exact (hall it hit).2.1
  · unfold Run.output
    rw [List.flatMap_eq_nil_iff]
    intro it hit
    exact (hall it hit).2.2

/-- C17 at the parameters written in main. -/
theorem wired_service_never_blocks_witness :
    (0 < mainParams.batchSize ∧ mainParams.batchSize ≤ maxInt ∧
      mainParams.numberOfItems ≤ maxInt) ∧
    (∀ e ∈ main.errors, e = none) ∧ main.output = [] :=
  ⟨by decide, (wired_service_never_blocks mainParams (by decide) (by decide) (by decide)).2⟩

/-- C18: for a capacity n below 2^63 `int(s.n)` is n and `Process` returns `ErrBlocked`
exactly when len(batch) > n; for a capacity from 2^63 up (below 2^64, as every `uint64`)
`int(s.n)` is the negative number n - 2^64 and `Process` returns `ErrBlocked` for every
batch, the empty one included. -/
theorem process_signed_capacity (n : Nat) (p : Duration) (ctx : Context) (batch : Batch)
    (hn : n < 18446744073709551616) :
    if n < 9223372036854775808 then
      intOfUint64 n = (n : Int) ∧
      (((ServiceImpl.mk n p).Process ctx batch).2 = some GoError.ErrBlocked ↔ n < batch.len) ∧
      (((ServiceImpl.mk n p).Process ctx batch).2 = none ↔ batch.len ≤ n)
    else
      intOfUint64 n = (n : Int) - 18446744073709551616 ∧ intOfUint64 n < 0 ∧
      ((ServiceImpl.mk n p).Process ctx batch).2 = some GoError.ErrBlocked ∧
      ((ServiceImpl.mk n p).Process ctx ⟨0, 0, 0⟩).2 = some GoError.ErrBlocked := by
  by_cases h : n < 9223372036854775808
  · rw [if_pos h, process_err_of_lt n p ctx batch h]
    refine ⟨intOfUint64_of_lt h, ?_, ?_⟩
    · by_cases hl : n < batch.len
      · simp [hl]
      · simp [hl]
    · by_cases hl : n < batch.len
      · rw [if_pos hl]; simp; omega
      · rw [if_neg hl]; simp; omega
  · rw [if_neg h]
    have h1 : 9223372036854775808 ≤ n := Nat.le_of_not_lt h
    refine ⟨intOfUint64_of_ge h1 hn, ?_, process_err_of_ge n p ctx batch h1 hn,
      process_err_of_ge n p ctx _ h1 hn⟩
    rw [intOfUint64_of_ge h1 hn]
    omega

/-- C18 at the capacity 2^63 and at the capacity 25, each with a batch of 30 items. -/
theorem process_signed_capacity_witness :
    ((9223372036854775808 : Nat) < 18446744073709551616 ∧
      intOfUint64 9223372036854775808 < 0 ∧
      ((ServiceImpl.mk 9223372036854775808 (2 * Second)).Process Context.Background
        ⟨0, 30, 69⟩).2 = some GoError.ErrBlocked) ∧
    ((25 : Nat) < 18446744073709551616 ∧ intOfUint64 25 = 25) :=
  ⟨⟨by decide,
    (process_signed_capacity 9223372036854775808 (2 * Second) Context.Background ⟨0, 30, 69⟩
      (by decide)).2.1,
    (process_signed_capacity 9223372036854775808 (2 * Second) Context.Background ⟨0, 30, 69⟩
      (by decide)).2.2.1⟩,
   by decide,
   (process_signed_capacity 25 (2 * Second) Context.Background ⟨0, 30, 69⟩ (by decide)).1⟩

/-- C19, as amended: under 64-bit wrap-around arithmetic, for batchSize > 0,
numberOfItems ≥ 0, numberOfItems + batchSize ≤ 2^63 - 1 and a quotient
numberOfItems / batchSize of at most 2^53, the loop ends normally and in every pass neither
`cursor + batchSize` (computed for `ub` and for `cursor += batchSize`) nor `i++` wraps:
the sum is at most (numberOfItems / batchSize + 1) * batchSize ≤ numberOfItems + batchSize,
and `ub` is the minimum of `lb + batchSize` and numberOfItems taken over the unbounded
integers. -/
theorem no_overflow_in_any_pass {σ : Type} (S : Service σ) (s : σ)
    (params : ServiceParameters) (hb : 0 < params.batchSize) (hn : 0 ≤ params.numberOfItems)
    (hov : params.numberOfItems + params.batchSize ≤ maxInt)
    (hq : params.numberOfItems / params.batchSize ≤ 2 ^ 53) :
    (run S s params).exit = Exit.Returned ∧
    (params.numberOfItems / params.batchSize + 1) * params.batchSize
      ≤ params.numberOfItems + params.batchSize ∧
    ∀ it ∈ (run S s params).iterations,
      addInt it.lb params.batchSize = it.lb + params.batchSize ∧
      addInt it.i 1 = it.i + 1 ∧
      it.lb + params.batchSize
        ≤ (params.numberOfItems / params.batchSize + 1) * params.batchSize ∧
      it.ub = min (it.lb + params.batchSize) params.numberOfItems := by
  obtain ⟨B, N, hp, hB, hov', hq', -, -⟩ := valid_params params hb hn hov hq
  rw [hp]
  simp only []
  have hmax : maxInt = 9223372036854775807 := rfl
  have hqB : N / B * B ≤ N := Nat.div_mul_le_self N B
  have hsucc : (N / B + 1) * B = N / B * B + B := Nat.succ_mul _ _
  have hcast : ((N : Int) / (B : Int) + 1) * (B : Int) = (((N / B + 1) * B : Nat) : Int) := by
    push_cast
    rfl
  rw [hcast]
  refine ⟨(run_slots S s B N _ hB hov' hq').1, by omega, ?_⟩
  intro it hit
  obtain ⟨j, hj, hslot⟩ := run_iteration_slot S s B N _ hB hov' hq' it hit
  have hi : it.i = (j : Int) := congrArg (fun t => t.1) hslot
  have hlb : it.lb = ((j * B : Nat) : Int) := congrArg (fun t => t.2.1) hslot
  have hub : it.ub = ((min (j * B + B) N : Nat) : Int) := congrArg (fun t => t.2.2.1) hslot
  have hjq : j ≤ N / B := (Nat.le_div_iff_mul_le hB).2 hj
  have hjB : j * B + B ≤ (N / B + 1) * B := by
    rw [← Nat.succ_mul]
    exact Nat.mul_le_mul_right B (Nat.succ_le_succ hjq)
  have hjN : j ≤ N := le_trans (Nat.le_mul_of_pos_right j hB) hj
  rw [hi, hlb, hub]
  refine ⟨?_, ?_, ?_, ?_⟩
  · rw [addInt_natCast _ _ (by omega)]
    push_cast
    rfl
  · have h1 : addInt (j : Int) 1 = ((j + 1 : Nat) : Int) :=
      addInt_natCast j 1 (by push_cast; omega)
    rw [h1]
    push_cast
    rfl
  · exact_mod_cast hjB
  · omega

/-- The amended C19 at the parameters written in main. -/
theorem no_overflow_in_any_pass_witness :
    (0 < mainParams.batchSize ∧ 0 ≤ mainParams.numberOfItems ∧
      mainParams.numberOfItems + mainParams.batchSize ≤ maxInt ∧
      mainParams.numberOfItems / mainParams.batchSize ≤ 2 ^ 53) ∧
    main.exit = Exit.Returned ∧
    ∀ it ∈ main.iterations,
      addInt it.lb mainParams.batchSize = it.lb + mainParams.batchSize ∧
      addInt it.i 1 = it.i + 1 ∧
      it.lb + mainParams.batchSize
        ≤ (mainParams.numberOfItems / mainParams.batchSize + 1) * mainParams.batchSize ∧
      it.ub = min (it.lb + mainParams.batchSize) mainParams.numberOfItems :=
  ⟨by decide,
   (no_overflow_in_any_pass implService (mainService mainParams) mainParams
      (by decide) (by decide) (by decide) (by decide)).1,
   (no_overflow_in_any_pass implService (mainService mainParams) mainParams
      (by decide) (by decide) (by decide) (by decide)).2.2⟩

/-- C19 fails as stated: batchSize = 2 and numberOfItems = 2^63 - 4 satisfy
numberOfItems + batchSize ≤ 2^63 - 1, but the quotient 2^62 - 2 becomes 2^62 in `float64`,
so the loop goes on after the 2^62 - 1 passes that cover the items.  The next pass starts
with cursor = 2^63 - 2, above (numberOfItems / batchSize + 1) * batchSize - batchSize, its
`ub := cursor + batchSize` wraps to -2^63, and the slice expression panics. -/
theorem upper_bound_wraps_after_rounding :
    (9223372036854775804 : Int) + 2 ≤ maxInt ∧
    batchAmount ⟨2, 2 * Second, 9223372036854775804⟩ = some 4611686018427387904 ∧
    (run implService (mainService ⟨2, 2 * Second, 9223372036854775804⟩)
      ⟨2, 2 * Second, 9223372036854775804⟩).exit = Exit.PanicSliceBounds ∧
    (run implService (mainService ⟨2, 2 * Second, 9223372036854775804⟩)
      ⟨2, 2 * Second, 9223372036854775804⟩).finalCursor ⟨2, 2 * Second, 9223372036854775804⟩
        = 9223372036854775806 ∧
    addInt 9223372036854775806 2 = -9223372036854775808 := by
  have h : (run implService (mainService ⟨2, 2 * Second, 9223372036854775804⟩)
        ⟨2, 2 * Second, 9223372036854775804⟩).exit = Exit.PanicSliceBounds ∧
      (run implService (mainService ⟨2, 2 * Second, 9223372036854775804⟩)
        ⟨2, 2 * Second, 9223372036854775804⟩).iterations.map Iteration.slot
        = (List.range (9223372036854775804 / 2 + 1)).map
            (slotAt 2 9223372036854775804 (2 * Second)) :=
    run_then_panic implService (mainService ⟨2, 2 * Second, 9223372036854775804⟩)
      2 9223372036854775804 (2 * Second) (by decide) (by decide) 4611686018427387904
      (by decide) (by decide)
  have hc := finalCursor_of_slots _ ⟨2, 2 * Second, 9223372036854775804⟩ 2
    9223372036854775804 (2 * Second) (9223372036854775804 / 2) h.2
  refine ⟨by decide, by decide, h.1, ?_, by decide⟩
  rw [hc]
  decide

end BatchService
